import Mathlib

/-!
Verification of the Yetria career-guidance prediction core.

This file shallowly embeds the prediction/scoring engine of the repository:

* `backend/app/services/prediction_service.py` (`PredictionService`:
  artifact loading, `_validate_input`, `predict_and_analyze`),
* `backend/app/api/endpoints/responses.py` (the two aggregation loops),
* `backend/app/crud/response_crud.py` (`convert_option_letter_to_scenariooptionid`,
  `save_user_responses`),
* `backend/app/crud/scenario_crud.py` (`get_all_scenarios` letter assignment),
* `backend/app/services/transformation_service.py` (letter re-derivation).

Machine floats are modelled as exact rationals; Python `round` is modelled
as round-half-to-even; Python dicts are modelled as insertion-ordered
association lists whose lookups return the first binding.
-/

/-- A single apostrophe character, used to mirror string literals of the
source without embedding quote characters in Lean string literals. -/
def squote : String := String.singleton (Char.ofNat 39)

/-- A double-quote character. -/
def dquote : String := String.singleton (Char.ofNat 34)

/-- Python `str.strip()`: drop leading and trailing whitespace
(implemented over the character list so that it evaluates by kernel
reduction). -/
def pyStrip (s : String) : String :=
  String.mk (((s.toList.dropWhile Char.isWhitespace).reverse.dropWhile
    Char.isWhitespace).reverse)

/-- Python `str(x).strip().lower()` as used for fuzzy competency-key
matching in `prediction_service.py`. -/
def cleanKey (s : String) : String :=
  String.mk ((pyStrip s).toList.map Char.toLower)

/-- The competency-name normalization of `responses.py` line 69:
`str(comp_name).strip().replace(squote, empty).replace(dquote, empty)` —
stripping then removing every apostrophe and double-quote character. -/
def normalizeCompName (s : String) : String :=
  String.mk ((pyStrip s).toList.filter
    (fun c => !(c == Char.ofNat 39 || c == Char.ofNat 34)))

/-- Python `round(x)`: round half to even, on exact rationals. -/
def roundHalfEven (q : ℚ) : ℤ :=
  let f : ℤ := ⌊q⌋
  let r : ℚ := q - (f : ℚ)
  if r < 1/2 then f
  else if 1/2 < r then f + 1
  else if f % 2 = 0 then f else f + 1

/-- Python `round(x, 1)`: round to one decimal place, half to even. -/
def round1 (q : ℚ) : ℚ := ((roundHalfEven (q * 10) : ℚ)) / 10

/-- Maximum of a list of rationals (`0` for the empty list, which mirrors
no source behaviour: `np.argmax` raises on empty input and all uses below
are guarded by non-emptiness). -/
def listMax : List ℚ → ℚ
  | [] => 0
  | [x] => x
  | x :: y :: t => max x (listMax (y :: t))

/-- `np.argmax`: the first (lowest) index at which a list attains its
maximum value. -/
def argmaxIdx (l : List ℚ) : ℕ :=
  l.findIdx (fun x => x == listMax l)

/-- First-bound association-list lookup (Python dict access semantics). -/
def lookupStr {β : Type} (t : List (String × β)) (k : String) : Option β :=
  (t.find? (fun p => p.1 == k)).map (fun p => p.2)

section PredictionService

/-- A Python value as it can occur in the `user_scores` dict handed to
`PredictionService`: `None`, a number (int/float collapsed to `ℚ`), or a
non-numeric value such as a string. -/
inductive PyVal where
  | vnone : PyVal
  | num : ℚ → PyVal
  | vstr : String → PyVal
deriving DecidableEq, Repr

/-- A Python dict from competency name to value, modelled as an
insertion-ordered association list. -/
abbrev PyDict := List (String × PyVal)

/-- `user_scores.get(feature)`: the first binding's value, or `None`
(`vnone`) when the key is absent.  Note a stored `None` value and an
absent key are indistinguishable to the caller, exactly as in Python. -/
def dictGet (m : PyDict) (k : String) : PyVal :=
  match m with
  | [] => .vnone
  | (k', v) :: t => if k' == k then v else dictGet t k

/-- The fuzzy-match loop of `_validate_input` (lines 82-87): iterate the
dict in insertion order and return the value of the first key whose
cleaned form equals `featureClean`; the loop `break`s at the first match
even if the matched value is `None`. -/
def fuzzyLookup (m : PyDict) (featureClean : String) : PyVal :=
  match m with
  | [] => .vnone
  | (k, v) :: t => if cleanKey k == featureClean then v else fuzzyLookup t featureClean

/-- Resolution of one feature in `_validate_input`: exact `dict.get`,
then (when that yields `None`) the fuzzy case-insensitive, trimmed
match. -/
def resolveScore (m : PyDict) (feature : String) : PyVal :=
  let s := dictGet m feature
  if s = .vnone then fuzzyLookup m (cleanKey feature) else s

/-- The two Python exception kinds `_validate_input` can raise. -/
inductive PyErr where
  | typeError : String → PyErr
  | valueError : String → PyErr
deriving DecidableEq, Repr

/-- `str(e)` of a caught exception. -/
def errMsg : PyErr → String
  | .typeError m => m
  | .valueError m => m

/-- The per-feature loop of `_validate_input` (lines 75-97): builds the
ordered score vector and the `missing_keys` list (surfaced by the source
as a warning log), raising `ValueError` at the first feature whose
resolved value is neither `None` nor numeric. -/
def validateLoop (m : PyDict) : List String → Except PyErr (List ℚ × List String)
  | [] => .ok ([], [])
  | f :: fs =>
    match resolveScore m f with
    | .vnone =>
      match validateLoop m fs with
      | .ok (v, miss) => .ok ((1 : ℚ)/2 :: v, f :: miss)
      | .error e => .error e
    | .num q =>
      match validateLoop m fs with
      | .ok (v, miss) => .ok (q :: v, miss)
      | .error e => .error e
    | .vstr _ =>
      .error (.valueError (squote ++ f ++ squote ++ " score must be numeric."))

/-- The argument passed to `predict_and_analyze`: a dict, or some
non-dict value (carrying only a description of itself). -/
inductive PyInput where
  | dict : PyDict → PyInput
  | nondict : String → PyInput

/-- `_validate_input` (lines 62-104): `TypeError` for non-dict input,
then the per-feature loop. -/
def validate_input (feature_names : List String) (input : PyInput) :
    Except PyErr (List ℚ × List String) :=
  match input with
  | .nondict _ =>
    .error (.typeError ("Input must be in " ++ squote ++ "dict" ++ squote ++ " format."))
  | .dict m => validateLoop m feature_names

/-- One entry of `uyum_skorlari`: occupation and integer compatibility. -/
structure CompatEntry where
  meslek : String
  uyum : ℤ
deriving DecidableEq, Repr

/-- One entry of `yetkinlik_karsilastirmasi`. -/
structure ComparisonRow where
  yetkinlik : String
  kullanici_skoru : ℚ
  grup_ortalamasi : ℚ
  fark : ℚ
deriving DecidableEq, Repr

/-- The successful payload of `predict_and_analyze`. -/
structure PredictionResult where
  uyum_skorlari : List CompatEntry
  kazanan_meslek : String
  yetkinlik_karsilastirmasi : List ComparisonRow
deriving DecidableEq, Repr

/-- `predict_and_analyze` returns either an error payload
(a dict with an `error` message) or a result; it never raises. -/
inductive PredictOutcome where
  | error : String → PredictOutcome
  | ok : PredictionResult → PredictOutcome
deriving DecidableEq, Repr

/-- The loaded prediction service: feature order and group averages from
the artifact bundle, label-encoder classes, and the scaler and
classifier treated as external fallible black boxes (any exception they
raise is modelled as an `Except.error` carrying the message). -/
structure Service where
  feature_names : List String
  classes : List String
  grup_ortalamalari : List (String × List (String × ℚ))
  scaler : List ℚ → Except String (List ℚ)
  predict_proba : List ℚ → Except String (List ℚ)

/-- `uyum_skorlari` construction (lines 121-124): zip encoder classes
with probabilities and round each probability to an integer percent. -/
def buildUyum (classes : List String) (probs : List ℚ) : List CompatEntry :=
  (classes.zip probs).map (fun p => ⟨p.1, roundHalfEven (p.2 * 100)⟩)

/-- Ordering used by `sorted(..., key=uyum, reverse=True)`. -/
def uyumGe (a b : CompatEntry) : Prop := b.uyum ≤ a.uyum

instance : DecidableRel uyumGe := fun a b => Int.decLe b.uyum a.uyum

instance : IsTotal CompatEntry uyumGe := ⟨fun a b => le_total b.uyum a.uyum⟩

instance : IsTrans CompatEntry uyumGe := ⟨fun _ _ _ h1 h2 => le_trans h2 h1⟩

/-- Python `sorted(entries, key=uyum, reverse=True)`: a stable
descending sort, modelled by insertion sort with the total preorder
`uyumGe` (any stable sort computes the same list). -/
def pySortDescUyum (l : List CompatEntry) : List CompatEntry :=
  List.insertionSort uyumGe l

/-- A minimal model of Python `float(s)` on a string: an optional sign,
digits, and an optional decimal fraction.  This branch of the source
(`round(float(user_score), 1)` inside the comparison loop) is
unreachable for inputs that already passed `_validate_input`, since a
string-valued resolution raises there first. -/
def parseDigits (cs : List Char) : Option ℕ :=
  cs.foldl (fun acc c =>
    match acc with
    | none => none
    | some n => if c.isDigit then some (10 * n + (c.toNat - 48)) else none) (some 0)

/-- Decimal-literal parsing for the `float(...)` model. -/
def parseDecimal? (s : String) : Option ℚ :=
  let t := s.trim.toList
  let (sign, body) : ℚ × List Char :=
    match t with
    | c :: rest => if c = Char.ofNat 45 then (-1, rest) else (1, t)
    | [] => (1, [])
  match body.splitOn (Char.ofNat 46) with
  | [intPart] =>
    if intPart.isEmpty then none
    else (parseDigits intPart).map (fun n => sign * (n : ℚ))
  | [intPart, fracPart] =>
    if intPart.isEmpty && fracPart.isEmpty then none
    else
      match parseDigits intPart, parseDigits fracPart with
      | some n, some f => some (sign * ((n : ℚ) + (f : ℚ) / ((10 : ℚ) ^ fracPart.length)))
      | _, _ => none
  | _ => none

/-- One row of the winner comparison (lines 133-166): re-resolve the
user score (exact, fuzzy, default `0.5`), take the group average with
default `0.5` when the feature is absent from the winner's row, and
round everything to one decimal; any inner exception (only `float(...)`
on a malformed value can raise here) yields the all-default row. -/
def buildRow (m : PyDict) (meslekOrt : List (String × ℚ)) (feature : String) :
    ComparisonRow :=
  let us := resolveScore m feature
  let usq : Option ℚ :=
    match us with
    | .vnone => some ((1 : ℚ)/2)
    | .num q => some q
    | .vstr s => parseDecimal? s
  let grupOrt : ℚ := (lookupStr meslekOrt feature).getD ((1 : ℚ)/2)
  match usq with
  | some q => ⟨feature, round1 q, round1 grupOrt, round1 (q - grupOrt)⟩
  | none => ⟨feature, (1 : ℚ)/2, (1 : ℚ)/2, 0⟩

/-- `predict_and_analyze` on a dict input (lines 108-175): validate,
scale, classify, build the compatibility list, pick the winner by
`np.argmax`, and build the comparison rows.  Exceptions caught by the
source's `try`/`except` blocks appear as the corresponding
`PredictOutcome.error` payloads. -/
def predictCore (s : Service) (m : PyDict) : PredictOutcome :=
  match validateLoop m s.feature_names with
  | .error e => .error (errMsg e)
  | .ok (scores, _missing) =>
    match s.scaler scores with
    | .error e => .error ("Model prediction error: " ++ e)
    | .ok scaled =>
      match s.predict_proba scaled with
      | .error e => .error ("Model prediction error: " ++ e)
      | .ok probabilities =>
        let uyum := buildUyum s.classes probabilities
        match probabilities with
        | [] => .error ("Error building comparison: attempt to get argmax of an empty sequence")
        | p :: ps =>
          match s.classes.get? (argmaxIdx (p :: ps)) with
          | none => .error ("Error building comparison: index out of range")
          | some kazanan =>
            match lookupStr s.grup_ortalamalari kazanan with
            | none => .error ("Error building comparison: " ++ kazanan)
            | some ort =>
              .ok { uyum_skorlari := pySortDescUyum uyum,
                    kazanan_meslek := kazanan,
                    yetkinlik_karsilastirmasi := s.feature_names.map (buildRow m ort) }

/-- The public entry point `predict_and_analyze`: the `TypeError` raised
by `_validate_input` on non-dict input is caught and returned as an
error payload. -/
def predict_and_analyze (s : Service) (input : PyInput) : PredictOutcome :=
  match input with
  | .nondict _ =>
    .error ("Input must be in " ++ squote ++ "dict" ++ squote ++ " format.")
  | .dict m => predictCore s m

/-- Modelled from the spec (paragraph 4.3): the three-step feature
resolution stated by the specification — exact key match, else
case-insensitive whitespace-trimmed match, else the neutral default with
the feature recorded as missing.  Used to state refinement of
`_validate_input` against the spec text. -/
def specResolvePy (m : PyDict) (f : String) : PyVal × Bool :=
  match m.find? (fun p => p.1 == f) with
  | some p => (p.2, false)
  | none =>
    match m.find? (fun p => cleanKey p.1 == cleanKey f) with
    | some p => (p.2, false)
    | none => (.num ((1 : ℚ)/2), true)

/-- The numeric value of the spec-side resolution (defined for maps
whose values are numeric). -/
def specVal (m : PyDict) (f : String) : ℚ :=
  match (specResolvePy m f).1 with
  | .num q => q
  | _ => (1 : ℚ)/2

/-- Whether the spec-side resolution reports the feature as missing. -/
def specMissing (m : PyDict) (f : String) : Bool := (specResolvePy m f).2

end PredictionService

section Aggregation

/-- One joined row of the aggregation query in `responses.py`:
`(ScenarioOption.score, Competency.name)`. -/
abbrev ScoreRow := ℚ × String

/-- Running totals and counts, keyed by competency name.  The source
keeps two dicts (`totals`, `counts`) updated in lockstep with identical
keys; they are merged here into one association list holding
`(total, count)` per key, preserving dict insertion order. -/
def addToTable (t : List (String × ℚ × ℕ)) (k : String) (s : ℚ) :
    List (String × ℚ × ℕ) :=
  match t with
  | [] => [(k, s, 1)]
  | (k', tot, cnt) :: rest =>
    if k' == k then (k', tot + s, cnt + 1) :: rest
    else (k', tot, cnt) :: addToTable rest k s

/-- Fold the joined rows into the totals/counts table, normalizing each
competency name with `norm` before using it as the key. -/
def buildTable (rows : List ScoreRow) (norm : String → String) :
    List (String × ℚ × ℕ) :=
  rows.foldl (fun t r => addToTable t (norm r.2) r.1) []

/-- The aggregation of `submit_responses_and_predict` (lines 64-73):
keys are normalized (trimmed, quote characters stripped) and each value
is `round(total / count, 1)`. -/
def aggregate_submit (rows : List ScoreRow) : List (String × ℚ) :=
  (buildTable rows normalizeCompName).map (fun e => (e.1, round1 (e.2.1 / (e.2.2 : ℚ))))

/-- The aggregation of `get_result_from_saved_responses` (lines
159-166): keys are the raw competency names and each value is the
unrounded mean `total / count`. -/
def aggregate_saved (rows : List ScoreRow) : List (String × ℚ) :=
  (buildTable rows (fun s => s)).map (fun e => (e.1, e.2.1 / (e.2.2 : ℚ)))

end Aggregation

section ArtifactLoader

/-- The payload of one artifact file.  The loader treats the classifier,
scaler and encoder as opaque objects (it never inspects their expected
feature order); only the group-average table is inspected, to derive the
canonical feature order. -/
inductive Artifact where
  | classifierArt : (featureOrder : List String) → Artifact
  | scalerArt : (featureOrder : List String) → Artifact
  | encoderArt : (classes : List String) → Artifact
  | grupArt : (table : List (String × List (String × ℚ))) → Artifact
deriving DecidableEq, Repr

/-- One file in the artifacts directory. -/
structure StoredFile where
  name : String
  mtime : ℕ
  art : Artifact
deriving DecidableEq, Repr

/-- Does `name` match the glob pattern `pre ++ star ++ suf`? -/
def globPS (pre suf name : String) : Bool :=
  pre.toList.isPrefixOf name.toList && suf.toList.isSuffixOf name.toList

/-- Python `max(files, key=mtime)`: the first element attaining the
maximal modification time (`none` on an empty list, where Python
raises; the source only calls it on non-empty glob results). -/
def pyMaxBy {α : Type} (f : α → ℕ) : List α → Option α
  | [] => none
  | x :: t => some (t.foldl (fun acc y => if f acc < f y then y else acc) x)

/-- Look a file up by exact name (`joblib.load(path)`). -/
def findFile (store : List StoredFile) (name : String) : Option StoredFile :=
  store.find? (fun f => f.name == name)

/-- Failures of `PredictionService.__init__`: a `FileNotFoundError`
(logged and re-raised, aborting startup), or any other load-time
exception (also uncaught at startup). -/
inductive LoadErr where
  | artifactMissing : String → LoadErr
  | loadFailure : String → LoadErr
deriving DecidableEq, Repr

/-- The optimized-then-legacy selection used for the classifier and the
label encoder (lines 30-39 and 44-51): glob the optimized pattern, take
the latest by mtime, otherwise fall back to the legacy file, otherwise
`FileNotFoundError`. -/
def loadOptimizedOrLegacy (store : List StoredFile) (pre suf legacy : String) :
    Except LoadErr StoredFile :=
  match pyMaxBy (fun f => f.mtime) (store.filter (fun f => globPS pre suf f.name)) with
  | some f => .ok f
  | none =>
    match findFile store legacy with
    | some f => .ok f
    | none => .error (.artifactMissing legacy)

/-- Plain legacy load used for the scaler and the group-average table
(lines 41 and 53): no optimized variant is ever consulted. -/
def loadLegacyOnly (store : List StoredFile) (legacy : String) :
    Except LoadErr StoredFile :=
  match findFile store legacy with
  | some f => .ok f
  | none => .error (.artifactMissing legacy)

/-- The loaded bundle: which file each artifact came from, the artifacts
themselves, and the canonical feature order derived from the first
group-average entry (line 54). -/
structure LoadedBundle where
  modelFile : String
  modelArt : Artifact
  scalerFile : String
  scalerArt : Artifact
  encoderFile : String
  encoderArt : Artifact
  grup : List (String × List (String × ℚ))
  feature_names : List String
deriving DecidableEq, Repr

/-- `PredictionService.__init__` (lines 28-60): load the four artifact
kinds in source order, then derive `feature_names` from the key order of
the first entry of the group-average table.  No cross-artifact agreement
is checked.  An empty or non-dict group-average object makes line 54
raise (uncaught `IndexError`/`AttributeError`), modelled as
`loadFailure`. -/
def loadService (store : List StoredFile) : Except LoadErr LoadedBundle :=
  match loadOptimizedOrLegacy store "lightgbm_optimized_" ".pkl" "best_model.joblib" with
  | .error e => .error e
  | .ok mf =>
    match loadLegacyOnly store "scaler.joblib" with
    | .error e => .error e
    | .ok sf =>
      match loadOptimizedOrLegacy store "label_encoder_" ".pkl" "label_encoder.joblib" with
      | .error e => .error e
      | .ok ef =>
        match loadLegacyOnly store "grup_ortalamalari.joblib" with
        | .error e => .error e
        | .ok gf =>
          match gf.art with
          | .grupArt t =>
            match t with
            | [] => .error (.loadFailure "grup ortalamalari table is empty")
            | g0 :: _ =>
              .ok { modelFile := mf.name, modelArt := mf.art,
                    scalerFile := sf.name, scalerArt := sf.art,
                    encoderFile := ef.name, encoderArt := ef.art,
                    grup := t, feature_names := g0.2.map (fun p => p.1) }
          | _ => .error (.loadFailure "grup ortalamalari artifact has unexpected type")

end ArtifactLoader

section Database

/-- A `ScenarioOption` row. -/
structure OptionRow where
  scenariooptionid : ℕ
  scenarioid : ℕ
  optiontext : String
  score : ℚ
deriving DecidableEq, Repr

instance : Inhabited OptionRow := ⟨⟨0, 0, "", 0⟩⟩

/-- A `UserResponse` row. -/
structure RespRow where
  userid : ℕ
  scenariooptionid : ℕ
deriving DecidableEq, Repr

/-- The slice of the relational store the response path touches. -/
structure DB where
  options : List OptionRow
  responses : List RespRow
deriving DecidableEq, Repr

/-- Ordering of options by their stable identifier. -/
def optionIdLe (a b : OptionRow) : Prop := a.scenariooptionid ≤ b.scenariooptionid

instance : DecidableRel optionIdLe := fun a b => Nat.decLe a.scenariooptionid b.scenariooptionid

instance : IsTotal OptionRow optionIdLe := ⟨fun a b => Nat.le_total a.scenariooptionid b.scenariooptionid⟩

instance : IsTrans OptionRow optionIdLe := ⟨fun _ _ _ h1 h2 => Nat.le_trans h1 h2⟩

/-- The options of one scenario ordered by `scenariooptionid`, as
returned by the `order_by` queries of `response_crud.py`,
`scenario_crud.py` and `transformation_service.py`. -/
def sortedOptionsFor (db : DB) (sid : ℕ) : List OptionRow :=
  List.insertionSort optionIdLe (db.options.filter (fun o => o.scenarioid == sid))

/-- `convert_option_letter_to_scenariooptionid` (lines 12-41): fetch the
scenario's options ordered by id, validate the letter, uppercase it,
convert `ord(letter) - ord(A)` to an index and return that option's id. -/
def convert_option_letter_to_scenariooptionid (db : DB) (scenario_id : ℕ)
    (option_letter : String) : Except String ℕ :=
  let options := sortedOptionsFor db scenario_id
  if options = [] then .error "No options found for scenario"
  else
    match option_letter.toList with
    | [c] =>
      let letter := c.toUpper
      let idx : ℤ := (letter.toNat : ℤ) - 65
      if 0 ≤ idx ∧ idx < (options.length : ℤ) then
        .ok ((options.getD idx.toNat default).scenariooptionid)
      else .error "Option letter out of range for scenario"
    | _ => .error "Invalid option letter"

/-- One submitted response (`schemas.ResponseIn`). -/
structure ResponseIn where
  scenario_id : ℕ
  option_letter : String
deriving DecidableEq, Repr

/-- One step of the payload de-duplication
`unique_responses[response.scenario_id] = response` (lines 58-60):
Python dict assignment keeps the key at its first-insertion position but
overwrites the value. -/
def upsertResp (acc : List ResponseIn) (r : ResponseIn) : List ResponseIn :=
  if acc.any (fun x => x.scenario_id == r.scenario_id) then
    acc.map (fun x => if x.scenario_id == r.scenario_id then r else x)
  else acc ++ [r]

/-- De-duplicate a payload by scenario id, last write wins. -/
def dedupeByScenario (rs : List ResponseIn) : List ResponseIn :=
  rs.foldl upsertResp []

/-- The scenario a response row belongs to, through its option
(`None` for a dangling option id). -/
def optionScenario? (db : DB) (oid : ℕ) : Option ℕ :=
  (db.options.find? (fun o => o.scenariooptionid == oid)).map (fun o => o.scenarioid)

/-- The deletion predicate of lines 65-74: the row belongs to the user
and its option belongs to one of the submitted scenarios.  (The source
issues one delete per scenario; their union is this predicate.) -/
def deleteCond (db : DB) (user_id : ℕ) (sids : List ℕ) (r : RespRow) : Bool :=
  r.userid == user_id &&
    db.options.any (fun o =>
      o.scenariooptionid == r.scenariooptionid && sids.contains o.scenarioid)

/-- Convert every de-duplicated response to a new `UserResponse` row
(lines 77-85), propagating the first conversion error. -/
def convertAll (db : DB) (user_id : ℕ) : List ResponseIn → Except String (List RespRow)
  | [] => .ok []
  | r :: rs =>
    match convert_option_letter_to_scenariooptionid db r.scenario_id r.option_letter with
    | .error e => .error e
    | .ok oid =>
      match convertAll db user_id rs with
      | .error e => .error e
      | .ok rows => .ok (⟨user_id, oid⟩ :: rows)

/-- `save_user_responses` (lines 44-96): de-duplicate the payload,
delete the user's existing responses for the submitted scenarios, insert
the converted rows, and commit; any error rolls the transaction back
(modelled by returning `Except.error`, leaving the caller's state
untouched). -/
def save_user_responses (db : DB) (responses : List ResponseIn) (user_id : ℕ) :
    Except String (DB × ℕ) :=
  let uniq := dedupeByScenario responses
  let sids := uniq.map (fun r => r.scenario_id)
  let kept := db.responses.filter (fun r => !(deleteCond db user_id sids r))
  match convertAll db user_id uniq with
  | .ok newRows => .ok ({ db with responses := kept ++ newRows }, newRows.length)
  | .error e => .error e

/-- The database state observed after `save_user_responses` runs inside
its transaction: the new state on commit, the old state on rollback. -/
def save_user_responses_state (db : DB) (responses : List ResponseIn) (user_id : ℕ) : DB :=
  match save_user_responses db responses user_id with
  | .ok (db2, _) => db2
  | .error _ => db

/-- `get_all_scenarios` (scenario_crud.py lines 29-37) for one scenario:
sort the options by id, enumerate, and pair each option's text with the
display letter `chr(65 + index)`. -/
def options_with_letters (db : DB) (sid : ℕ) : List (Char × String) :=
  (sortedOptionsFor db sid).enum.map (fun p => (Char.ofNat (65 + p.1), p.2.optiontext))

/-- The position of an option among its scenario's options ordered by
id (`scenario_options.index(opt)` in `transformation_service.py`);
options are identified by their primary key. -/
def optionIndexInScenario (db : DB) (o : OptionRow) : ℕ :=
  (sortedOptionsFor db o.scenarioid).findIdx
    (fun x => x.scenariooptionid == o.scenariooptionid)

/-- The display letter `transformation_service.py` (lines 44-54)
re-derives for an option while building its score map. -/
def derivedLetter (db : DB) (o : OptionRow) : Char :=
  Char.ofNat (65 + optionIndexInScenario db o)

/-- The round trip of the spec's letter-mapping invariant: submitted
letter to stored option (via `convert_option_letter_to_scenariooptionid`),
then the letter re-derived for that stored option (via the
`transformation_service.py` derivation). -/
def roundTripLetter (db : DB) (sid : ℕ) (letter : String) : Except String Char :=
  match convert_option_letter_to_scenariooptionid db sid letter with
  | .error e => .error e
  | .ok oid =>
    match db.options.find? (fun o => o.scenariooptionid == oid) with
    | some o => .ok (derivedLetter db o)
    | none => .error "stored option not found"

/-- The filter selecting the stored responses of `u` for scenario
`sid` (used to state the replace-semantics invariant). -/
def respMatches (db : DB) (u sid : ℕ) (x : RespRow) : Bool :=
  x.userid == u && (optionScenario? db x.scenariooptionid == some sid)

/-- Number of stored responses of `u` for scenario `sid`. -/
def respCount (db : DB) (u sid : ℕ) : ℕ :=
  (db.responses.filter (respMatches db u sid)).length

/-- A response row untouched by a submission of `sids` from user `u`:
it belongs to another user or to a scenario outside the batch. -/
def untouchedBy (db : DB) (u : ℕ) (sids : List ℕ) (x : RespRow) : Bool :=
  !(x.userid == u && sids.any (fun sid => optionScenario? db x.scenariooptionid == some sid))

end Database

section RoundingLemmas

theorem roundHalfEven_nonneg {q : ℚ} (h : 0 ≤ q) : 0 ≤ roundHalfEven q := by
  unfold roundHalfEven
  have hf : (0 : ℤ) ≤ ⌊q⌋ := Int.le_floor.mpr (by exact_mod_cast h)
  dsimp only
  split_ifs <;> omega

theorem roundHalfEven_le_hundred {q : ℚ} (h : q ≤ 100) : roundHalfEven q ≤ 100 := by
  unfold roundHalfEven
  have hf : ⌊q⌋ ≤ 100 := by
    have h2 : ⌊q⌋ ≤ ⌊(100 : ℚ)⌋ := Int.floor_le_floor h
    simpa using h2
  have hfl : (⌊q⌋ : ℚ) ≤ q := Int.floor_le q
  dsimp only
  split_ifs with h1 h2 h3
  · exact hf
  · have h99 : ⌊q⌋ ≤ 99 := by
      by_contra hc
      push_neg at hc
      have hc2 : (100 : ℚ) ≤ (⌊q⌋ : ℚ) := by exact_mod_cast hc
      linarith
    omega
  · exact hf
  · have heq : q - (⌊q⌋ : ℚ) = 1/2 := le_antisymm (not_lt.mp h2) (not_lt.mp h1)
    have h99 : ⌊q⌋ ≤ 99 := by
      by_contra hc
      push_neg at hc
      have hc2 : (100 : ℚ) ≤ (⌊q⌋ : ℚ) := by exact_mod_cast hc
      linarith
    omega

end RoundingLemmas

section ArgmaxLemmas

theorem le_listMax : ∀ (l : List ℚ), ∀ x ∈ l, x ≤ listMax l
  | [] => by intro x hx; cases hx
  | [a] => by
    intro x hx
    rw [List.mem_singleton] at hx
    subst hx
    simp [listMax]
  | a :: b :: t => by
    intro x hx
    rcases List.mem_cons.mp hx with h | h
    · subst h
      simp only [listMax]
      exact le_max_left _ _
    · have ih := le_listMax (b :: t) x h
      simp only [listMax]
      exact le_trans ih (le_max_right _ _)

theorem listMax_mem : ∀ (l : List ℚ), l ≠ [] → listMax l ∈ l
  | [], h => absurd rfl h
  | [a], _ => by simp [listMax]
  | a :: b :: t, _ => by
    simp only [listMax]
    rcases le_total (listMax (b :: t)) a with h | h
    · rw [max_eq_left h]
      exact List.mem_cons_self _ _
    · rw [max_eq_right h]
      exact List.mem_cons_of_mem _ (listMax_mem (b :: t) (by simp))

theorem argmaxIdx_lt_length (l : List ℚ) (h : l ≠ []) : argmaxIdx l < l.length := by
  apply List.findIdx_lt_length_of_exists
  exact ⟨listMax l, listMax_mem l h, by simp⟩

theorem argmaxIdx_attains (l : List ℚ) (h : l ≠ []) :
    l.get? (argmaxIdx l) = some (listMax l) := by
  have hlt := argmaxIdx_lt_length l h
  unfold argmaxIdx at hlt ⊢
  have hp : (fun x => x == listMax l) (l.get ⟨List.findIdx (fun x => x == listMax l) l, hlt⟩) = true :=
    @List.findIdx_get _ (fun x => x == listMax l) l hlt
  have hv : l.get ⟨List.findIdx (fun x => x == listMax l) l, hlt⟩ = listMax l := by
    simpa using hp
  rw [List.get?_eq_getElem?, List.getElem?_eq_getElem hlt]
  exact congrArg some (((List.get_eq_getElem l ⟨_, hlt⟩).symm).trans hv)

theorem argmaxIdx_first (l : List ℚ) {j : ℕ} (hj : j < argmaxIdx l) {x : ℚ}
    (hx : l.get? j = some x) : x < listMax l := by
  unfold argmaxIdx at hj
  have hjl : j < l.length := by
    have h1 : List.findIdx (fun x => x == listMax l) l ≤ l.length := List.findIdx_le_length _
    omega
  have hne : (fun y => y == listMax l) l[j] = false := List.not_of_lt_findIdx hj
  have hxe : l[j] = x := by
    rw [List.get?_eq_getElem?, List.getElem?_eq_getElem hjl] at hx
    exact Option.some.inj hx
  have hnex : x ≠ listMax l := by
    rw [hxe] at hne
    simpa using hne
  have hle : x ≤ listMax l := le_listMax l x (by
    have := List.getElem_mem (l := l) (n := j) hjl
    rwa [hxe] at this)
  exact lt_of_le_of_ne hle hnex

end ArgmaxLemmas

section StableSortLemmas

theorem filter_orderedInsert_uyum_eq (a : CompatEntry) (k : ℤ) (h : a.uyum = k) :
    ∀ l : List CompatEntry,
      (List.orderedInsert uyumGe a l).filter (fun e => e.uyum == k)
        = a :: l.filter (fun e => e.uyum == k)
  | [] => by simp [List.orderedInsert, List.filter_cons, h]
  | b :: t => by
    by_cases hr : uyumGe a b
    · simp only [List.orderedInsert, if_pos hr]
      simp [List.filter_cons, h]
    · have hbk : ¬ b.uyum = k := by
        intro hbk
        exact hr (by unfold uyumGe; omega)
      simp only [List.orderedInsert, if_neg hr]
      rw [List.filter_cons, List.filter_cons]
      simp only [beq_iff_eq, hbk, if_false]
      exact filter_orderedInsert_uyum_eq a k h t

theorem filter_orderedInsert_uyum_ne (a : CompatEntry) (k : ℤ) (h : ¬ a.uyum = k) :
    ∀ l : List CompatEntry,
      (List.orderedInsert uyumGe a l).filter (fun e => e.uyum == k)
        = l.filter (fun e => e.uyum == k)
  | [] => by simp [List.orderedInsert, List.filter_cons, h]
  | b :: t => by
    by_cases hr : uyumGe a b
    · simp only [List.orderedInsert, if_pos hr]
      simp [List.filter_cons, h]
    · simp only [List.orderedInsert, if_neg hr]
      rw [List.filter_cons, List.filter_cons]
      by_cases hbk : b.uyum = k
      · simp only [beq_iff_eq, hbk, if_true]
        rw [filter_orderedInsert_uyum_ne a k h t]
      · simp only [beq_iff_eq, hbk, if_false]
        exact filter_orderedInsert_uyum_ne a k h t

theorem filter_insertionSort_uyum (k : ℤ) :
    ∀ l : List CompatEntry,
      (List.insertionSort uyumGe l).filter (fun e => e.uyum == k)
        = l.filter (fun e => e.uyum == k)
  | [] => rfl
  | a :: t => by
    simp only [List.insertionSort]
    by_cases h : a.uyum = k
    · rw [filter_orderedInsert_uyum_eq a k h, filter_insertionSort_uyum k t,
        List.filter_cons]
      simp [h]
    · rw [filter_orderedInsert_uyum_ne a k h, filter_insertionSort_uyum k t,
        List.filter_cons]
      simp [h]

theorem zip_get?_some {α β : Type} :
    ∀ (l : List α) (m : List β) (i : ℕ) (a : α) (b : β),
      l.get? i = some a → m.get? i = some b → (l.zip m).get? i = some (a, b)
  | [], _, i, _, _, h, _ => by simp at h
  | _ :: _, [], i, _, _, _, h => by simp at h
  | x :: xs, y :: ys, 0, a, b, h1, h2 => by
    simp only [List.get?] at h1 h2
    simp [List.zip_cons_cons, Option.some.inj h1, Option.some.inj h2]
  | x :: xs, y :: ys, i + 1, a, b, h1, h2 => by
    simp only [List.get?] at h1 h2
    simpa [List.zip_cons_cons] using zip_get?_some xs ys i a b h1 h2

end StableSortLemmas

/-- Claim C4: for every probability vector with entries in `[0,1]` and one
entry per label-encoder class, the compatibility list built by
`predict_and_analyze` has one `(occupation, compatibility)` pair per class
with `compatibility = round(probability * 100)`, an integer in `[0, 100]`;
the final list is sorted descending by compatibility and ties keep encoder
class order (stable sort, stated as preservation of every
equal-compatibility fibre). -/
theorem C4_compat_list_spec (classes : List String) (probs : List ℚ)
    (hlen : probs.length = classes.length)
    (hbound : ∀ q ∈ probs, 0 ≤ q ∧ q ≤ 1) :
    (pySortDescUyum (buildUyum classes probs)).length = classes.length
    ∧ (∀ i c q, classes.get? i = some c → probs.get? i = some q →
        (buildUyum classes probs).get? i = some ⟨c, roundHalfEven (q * 100)⟩)
    ∧ (∀ e ∈ pySortDescUyum (buildUyum classes probs), 0 ≤ e.uyum ∧ e.uyum ≤ 100)
    ∧ List.Sorted uyumGe (pySortDescUyum (buildUyum classes probs))
    ∧ (pySortDescUyum (buildUyum classes probs)).Perm (buildUyum classes probs)
    ∧ (∀ k : ℤ, (pySortDescUyum (buildUyum classes probs)).filter (fun e => e.uyum == k)
        = (buildUyum classes probs).filter (fun e => e.uyum == k)) := by
  have hperm : (pySortDescUyum (buildUyum classes probs)).Perm (buildUyum classes probs) :=
    List.perm_insertionSort uyumGe _
  refine ⟨?_, ?_, ?_, ?_, hperm, ?_⟩
  · rw [hperm.length_eq]
    unfold buildUyum
    rw [List.length_map, List.length_zip, hlen]
    exact min_self _
  · intro i c q hc hq
    unfold buildUyum
    rw [List.get?_map, zip_get?_some classes probs i c q hc hq]
    rfl
  · intro e he
    have hmem : e ∈ buildUyum classes probs := hperm.mem_iff.mp he
    unfold buildUyum at hmem
    rcases List.mem_map.mp hmem with ⟨p, hp, rfl⟩
    have hq : p.2 ∈ probs := (List.of_mem_zip hp).2
    rcases hbound p.2 hq with ⟨h0, h1⟩
    constructor
    · exact roundHalfEven_nonneg (by positivity)
    · exact roundHalfEven_le_hundred (by linarith)
  · exact List.sorted_insertionSort uyumGe _
  · intro k
    exact filter_insertionSort_uyum k _

/-- Witness for C4 at the spec's concrete example: two classes with
probabilities `0.7` and `0.3`. -/
theorem C4_compat_list_spec_witness :
    (pySortDescUyum (buildUyum ["Doctor", "Engineer"] [7/10, 3/10])).length = 2
    ∧ (∀ e ∈ pySortDescUyum (buildUyum ["Doctor", "Engineer"] [7/10, 3/10]),
        0 ≤ e.uyum ∧ e.uyum ≤ 100) := by
  have h := C4_compat_list_spec ["Doctor", "Engineer"] [7/10, 3/10] (by decide)
    (by intro q hq; fin_cases hq <;> constructor <;> norm_num)
  exact ⟨h.1, h.2.2.1⟩

section ValidateLemmas

theorem dictGet_eq_find? : ∀ (m : PyDict) (k : String),
    dictGet m k = ((m.find? (fun p => p.1 == k)).map (fun p => p.2)).getD .vnone
  | [], _ => rfl
  | (k', v) :: t, k => by
    by_cases h : k' == k
    · simp [dictGet, List.find?_cons, h]
    · simp only [dictGet, List.find?_cons, h, if_false, cond_false]
      exact dictGet_eq_find? t k

theorem fuzzyLookup_eq_find? : ∀ (m : PyDict) (c : String),
    fuzzyLookup m c = ((m.find? (fun p => cleanKey p.1 == c)).map (fun p => p.2)).getD .vnone
  | [], _ => rfl
  | (k', v) :: t, c => by
    by_cases h : cleanKey k' == c
    · simp [fuzzyLookup, List.find?_cons, h]
    · simp only [fuzzyLookup, List.find?_cons, h, if_false, cond_false]
      exact fuzzyLookup_eq_find? t c

theorem specMissing_val (m : PyDict) (f : String) (h : specMissing m f = true) :
    specVal m f = 1/2 := by
  unfold specMissing specResolvePy at h
  unfold specVal specResolvePy
  rcases he : m.find? (fun p => p.1 == f) with _ | p
  · rcases hc : m.find? (fun p => cleanKey p.1 == cleanKey f) with _ | p2
    · simp [he, hc]
    · rw [he, hc] at h
      simp at h
  · rw [he] at h
    simp at h

theorem resolve_spec_of_numeric (m : PyDict)
    (hnum : ∀ p ∈ m, ∃ q, p.2 = PyVal.num q) (f : String) :
    resolveScore m f =
      (if specMissing m f = true then PyVal.vnone else PyVal.num (specVal m f)) := by
  unfold resolveScore specMissing specVal specResolvePy
  rw [dictGet_eq_find?, fuzzyLookup_eq_find?]
  rcases he : m.find? (fun p => p.1 == f) with _ | p
  · rw [he]
    rcases hc : m.find? (fun p => cleanKey p.1 == cleanKey f) with _ | p2
    · rw [hc]
      simp
    · rw [hc]
      rcases hnum p2 (List.mem_of_find?_eq_some hc) with ⟨q, hq⟩
      simp [hq]
  · rw [he]
    rcases hnum p (List.mem_of_find?_eq_some he) with ⟨q, hq⟩
    simp [hq]

theorem validateLoop_of_numeric (m : PyDict)
    (hnum : ∀ p ∈ m, ∃ q, p.2 = PyVal.num q) :
    ∀ fs : List String,
      validateLoop m fs = .ok (fs.map (specVal m), fs.filter (specMissing m))
  | [] => rfl
  | f :: fs => by
    have hr := resolve_spec_of_numeric m hnum f
    rcases hmiss : specMissing m f with _ | _
    · rw [hmiss] at hr
      simp at hr
      simp only [validateLoop, hr, validateLoop_of_numeric m hnum fs,
        List.map_cons, List.filter_cons, hmiss]
      rfl
    · rw [hmiss] at hr
      simp at hr
      simp only [validateLoop, hr, validateLoop_of_numeric m hnum fs,
        List.map_cons, List.filter_cons, hmiss]
      rw [specMissing_val m f hmiss]
      rfl

end ValidateLemmas

/-- Claim C2: for numeric input score maps, the feature-vector builder
resolves each canonical feature by exact key match, then by a
case-insensitive whitespace-trimmed match, then by the neutral default
`0.5` recorded in the reported missing set; the output vector always has
one entry per canonical feature (never omitted, never silently `0`), and
the empty map defaults every feature and reports every feature
missing.  The first conjunct is the refinement of `_validate_input`
against the spec-side three-step rule `specResolvePy`. -/
theorem C2_validate_matches_spec (m : PyDict) (fs : List String)
    (hnum : ∀ p ∈ m, ∃ q, p.2 = PyVal.num q) :
    validateLoop m fs = .ok (fs.map (specVal m), fs.filter (specMissing m))
    ∧ (fs.map (specVal m)).length = fs.length
    ∧ (∀ f p q, m.find? (fun x => x.1 == f) = some p → p.2 = PyVal.num q →
        specVal m f = q ∧ specMissing m f = false)
    ∧ (∀ f p q, m.find? (fun x => x.1 == f) = none →
        m.find? (fun x => cleanKey x.1 == cleanKey f) = some p → p.2 = PyVal.num q →
        specVal m f = q ∧ specMissing m f = false)
    ∧ (∀ f, m.find? (fun x => cleanKey x.1 == cleanKey f) = none →
        specVal m f = 1/2 ∧ specMissing m f = true)
    ∧ validateLoop [] fs = .ok (fs.map (fun _ => (1 : ℚ)/2), fs) := by
  refine ⟨validateLoop_of_numeric m hnum fs, List.length_map fs _, ?_, ?_, ?_, ?_⟩
  · intro f p q he hq
    unfold specVal specMissing specResolvePy
    simp [he, hq]
  · intro f p q he hc hq
    unfold specVal specMissing specResolvePy
    simp [he, hc, hq]
  · intro f hc
    have he : m.find? (fun x => x.1 == f) = none := by
      rcases hx : m.find? (fun x => x.1 == f) with _ | p
      · exact hx
      · have h1 := List.find?_some hx
        have h2 : p.1 = f := by simpa using h1
        have h3 := List.find?_eq_none.mp hc p (List.mem_of_find?_eq_some hx)
        exact absurd (by simp [h2]) h3
    unfold specVal specMissing specResolvePy
    simp [he, hc]
  · have h := validateLoop_of_numeric [] (by intro p hp; cases hp) fs
    rw [h]
    have hv : ∀ f, specVal [] f = 1/2 := by
      intro f
      unfold specVal specResolvePy
      simp
    have hm : ∀ f, specMissing [] f = true := by
      intro f
      unfold specMissing specResolvePy
      simp
    congr 1
    refine Prod.ext ?_ ?_
    · simp only []
      exact List.map_congr_left (fun f _ => hv f)
    · simp only []
      rw [List.filter_eq_self.mpr (fun f _ => hm f)]

/-- Witness for C2: a map with one exact match, one fuzzy (trimmed,
case-insensitive) match and one missing canonical feature. -/
theorem C2_validate_matches_spec_witness :
    validateLoop [("Empathy", PyVal.num 3), (" social ", PyVal.num 2)]
        ["Empathy", "Social", "Missing"]
      = .ok ([3, 2, 1/2], ["Missing"]) := by
  have h := (C2_validate_matches_spec
    [("Empathy", PyVal.num 3), (" social ", PyVal.num 2)]
    ["Empathy", "Social", "Missing"]
    (by
      intro p hp
      rcases List.mem_cons.mp hp with h1 | h1
      · exact ⟨3, by rw [h1]⟩
      · rcases List.mem_cons.mp h1 with h2 | h2
        · exact ⟨2, by rw [h2]⟩
        · cases h2)).1
  rw [h]
  rfl

/-- Counterexample to claim C10 as stated: in the map with keys
`X + space` (value `2`) and `X` (value `None`), the feature `X` has a
`None` value under an exactly matching key, yet `_validate_input`
resolves it to `2` through the fuzzy match — it is neither substituted
with the default `0.5` nor reported in the missing set. -/
theorem C10_counterexample :
    validateLoop [("X ", PyVal.num 2), ("X", PyVal.vnone)] ["X"]
      = .ok ([2], []) ∧ (2 : ℚ) ≠ 1/2 := by
  constructor
  · rfl
  · norm_num

/-- Claim C10 (amended): a `None`-valued entry — even under an exactly
matching key — is treated as absent: resolution falls through to the
fuzzy case-insensitive match, and the feature is defaulted to `0.5` and
reported missing exactly when that fuzzy match also yields nothing (or
`None`); the non-numeric `ValueError` is raised only for a resolved
value that is present and neither `None` nor numeric. -/
theorem C10_none_treated_as_missing (m : PyDict) (f : String) (fs : List String) :
    (dictGet m f = .vnone → resolveScore m f = fuzzyLookup m (cleanKey f))
    ∧ fuzzyLookup m (cleanKey f)
        = ((m.find? (fun p => cleanKey p.1 == cleanKey f)).map (fun p => p.2)).getD .vnone
    ∧ (resolveScore m f = .vnone → ∀ v miss, validateLoop m fs = .ok (v, miss) →
        validateLoop m (f :: fs) = .ok ((1 : ℚ)/2 :: v, f :: miss))
    ∧ (∀ q, resolveScore m f = .num q → ∀ v miss, validateLoop m fs = .ok (v, miss) →
        validateLoop m (f :: fs) = .ok (q :: v, miss))
    ∧ (∀ t, resolveScore m f = .vstr t →
        validateLoop m (f :: fs)
          = .error (.valueError (squote ++ f ++ squote ++ " score must be numeric."))) := by
  refine ⟨?_, fuzzyLookup_eq_find? m (cleanKey f), ?_, ?_, ?_⟩
  · intro h
    unfold resolveScore
    simp [h]
  · intro h v miss hrec
    simp only [validateLoop, h, hrec]
  · intro q h v miss hrec
    simp only [validateLoop, h, hrec]
  · intro t h
    simp only [validateLoop, h]

/-- Witness for C10 (amended): a `None` under the only key of the map is
defaulted and reported missing. -/
theorem C10_none_treated_as_missing_witness :
    validateLoop [("X", PyVal.vnone)] ["X"] = .ok ([(1 : ℚ)/2], ["X"]) :=
  (C10_none_treated_as_missing [("X", PyVal.vnone)] "X" []).2.2.1 rfl [] [] rfl

/-- Claim C3: the public prediction entry point always returns a
structured value — an error payload for non-dict input, for a
non-numeric resolved score, and for any scaler or classifier failure —
and a successful `PredictionResult` when validation, scaling and
classification succeed and the loaded bundle is coherent (non-empty
probability vector, winner index inside the encoder classes, winner
present in the group-average table). -/
theorem C3_predict_total (s : Service) (input : PyInput) :
    ((∃ msg, predict_and_analyze s input = .error msg)
      ∨ (∃ r, predict_and_analyze s input = .ok r))
    ∧ (∀ d, input = .nondict d →
        predict_and_analyze s input
          = .error ("Input must be in " ++ squote ++ "dict" ++ squote ++ " format."))
    ∧ (∀ m e, input = .dict m → validateLoop m s.feature_names = .error e →
        predict_and_analyze s input = .error (errMsg e))
    ∧ (∀ m scores miss e, input = .dict m →
        validateLoop m s.feature_names = .ok (scores, miss) →
        s.scaler scores = .error e →
        predict_and_analyze s input = .error ("Model prediction error: " ++ e))
    ∧ (∀ m scores miss scaled e, input = .dict m →
        validateLoop m s.feature_names = .ok (scores, miss) →
        s.scaler scores = .ok scaled →
        s.predict_proba scaled = .error e →
        predict_and_analyze s input = .error ("Model prediction error: " ++ e))
    ∧ (∀ m scores miss scaled p ps w ort, input = .dict m →
        validateLoop m s.feature_names = .ok (scores, miss) →
        s.scaler scores = .ok scaled →
        s.predict_proba scaled = .ok (p :: ps) →
        s.classes.get? (argmaxIdx (p :: ps)) = some w →
        lookupStr s.grup_ortalamalari w = some ort →
        predict_and_analyze s input
          = .ok { uyum_skorlari := pySortDescUyum (buildUyum s.classes (p :: ps)),
                  kazanan_meslek := w,
                  yetkinlik_karsilastirmasi := s.feature_names.map (buildRow m ort) }) := by
  refine ⟨?_, ?_, ?_, ?_, ?_, ?_⟩
  · rcases h : predict_and_analyze s input with msg | r
    · exact Or.inl ⟨msg, rfl⟩
    · exact Or.inr ⟨r, rfl⟩
  · intro d hd
    subst hd
    rfl
  · intro m e hm hv
    subst hm
    simp only [predict_and_analyze, predictCore, hv]
  · intro m scores miss e hm hv hs
    subst hm
    simp only [predict_and_analyze, predictCore, hv, hs]
  · intro m scores miss scaled e hm hv hs hp
    subst hm
    simp only [predict_and_analyze, predictCore, hv, hs, hp]
  · intro m scores miss scaled p ps w ort hm hv hs hp hw ho
    subst hm
    simp only [predict_and_analyze, predictCore, hv, hs, hp, hw, ho]

/-- Witness for C3: non-dict input produces the structured type-error
payload; a failing classifier produces the structured prediction-error
payload. -/
theorem C3_predict_total_witness :
    predict_and_analyze
        { feature_names := ["Empathy"], classes := ["Doctor"],
          grup_ortalamalari := [("Doctor", [("Empathy", 1)])],
          scaler := fun v => .ok v,
          predict_proba := fun _ => .error "boom" }
        (.nondict "a list, not a dict")
      = .error ("Input must be in " ++ squote ++ "dict" ++ squote ++ " format.")
    ∧ predict_and_analyze
        { feature_names := ["Empathy"], classes := ["Doctor"],
          grup_ortalamalari := [("Doctor", [("Empathy", 1)])],
          scaler := fun v => .ok v,
          predict_proba := fun _ => .error "boom" }
        (.dict [("Empathy", PyVal.num 3)])
      = .error ("Model prediction error: " ++ "boom") := by
  constructor
  · exact (C3_predict_total _ _).2.1 "a list, not a dict" rfl
  · exact (C3_predict_total _ _).2.2.2.2.1 [("Empathy", PyVal.num 3)] [3] [] [3] "boom"
      rfl rfl rfl rfl

/-- Claim C5: the winning occupation is the argmax of the raw
probabilities with ties broken by the lowest class index, and every
winner comparison row carries the user score, the group average
(defaulted to `0.5` when the feature is absent from the winner's
group-average row) and their difference, each rounded to one decimal. -/
theorem C5_winner_and_rows (s : Service) (m : PyDict)
    (hnum : ∀ p2 ∈ m, ∃ q, p2.2 = PyVal.num q)
    (scores scaled : List ℚ) (miss : List String) (p : ℚ) (ps : List ℚ) (w : String)
    (ort : List (String × ℚ))
    (hv : validateLoop m s.feature_names = .ok (scores, miss))
    (hs : s.scaler scores = .ok scaled)
    (hp : s.predict_proba scaled = .ok (p :: ps))
    (hw : s.classes.get? (argmaxIdx (p :: ps)) = some w)
    (ho : lookupStr s.grup_ortalamalari w = some ort) :
    predict_and_analyze s (.dict m)
      = .ok { uyum_skorlari := pySortDescUyum (buildUyum s.classes (p :: ps)),
              kazanan_meslek := w,
              yetkinlik_karsilastirmasi := s.feature_names.map (buildRow m ort) }
    ∧ argmaxIdx (p :: ps) < (p :: ps).length
    ∧ (p :: ps).get? (argmaxIdx (p :: ps)) = some (listMax (p :: ps))
    ∧ (∀ j x, j < argmaxIdx (p :: ps) → (p :: ps).get? j = some x →
        x < listMax (p :: ps))
    ∧ (∀ x ∈ p :: ps, x ≤ listMax (p :: ps))
    ∧ (∀ f, buildRow m ort f
        = { yetkinlik := f,
            kullanici_skoru := round1 (specVal m f),
            grup_ortalamasi := round1 ((lookupStr ort f).getD ((1 : ℚ)/2)),
            fark := round1 (specVal m f - (lookupStr ort f).getD ((1 : ℚ)/2)) }) := by
  refine ⟨?_, argmaxIdx_lt_length _ (by simp), argmaxIdx_attains _ (by simp),
    ?_, le_listMax _, ?_⟩
  · simp only [predict_and_analyze, predictCore, hv, hs, hp, hw, ho]
  · intro j x hj hx
    exact argmaxIdx_first _ hj hx
  · intro f
    have hr := resolve_spec_of_numeric m hnum f
    unfold buildRow
    rcases hmiss : specMissing m f with _ | _
    · rw [hmiss] at hr
      simp at hr
      simp only [hr]
    · rw [hmiss] at hr
      simp at hr
      simp only [hr, specMissing_val m f hmiss]

/-- Witness for C5: a two-class service where the classifier reports
probabilities `0.7` and `0.3`; the winner is the first class. -/
theorem C5_winner_and_rows_witness :
    predict_and_analyze
        { feature_names := ["Empathy"], classes := ["Doctor", "Engineer"],
          grup_ortalamalari := [("Doctor", [("Empathy", 1)]), ("Engineer", [("Empathy", 0)])],
          scaler := fun v => .ok v,
          predict_proba := fun _ => .ok [mkRat 7 10, mkRat 3 10] }
        (.dict [("Empathy", PyVal.num 1)])
      = .ok { uyum_skorlari :=
                pySortDescUyum (buildUyum ["Doctor", "Engineer"] [mkRat 7 10, mkRat 3 10]),
              kazanan_meslek := "Doctor",
              yetkinlik_karsilastirmasi :=
                ["Empathy"].map
                  (buildRow [("Empathy", PyVal.num 1)] [("Empathy", 1)]) } :=
  (C5_winner_and_rows
    { feature_names := ["Empathy"], classes := ["Doctor", "Engineer"],
      grup_ortalamalari := [("Doctor", [("Empathy", 1)]), ("Engineer", [("Empathy", 0)])],
      scaler := fun v => .ok v,
      predict_proba := fun _ => .ok [mkRat 7 10, mkRat 3 10] }
    [("Empathy", PyVal.num 1)]
    (by
      intro p2 hp2
      rcases List.mem_cons.mp hp2 with h1 | h1
      · exact ⟨1, by rw [h1]⟩
      · cases h1)
    [1] [1] [] (mkRat 7 10) [mkRat 3 10] "Doctor" [("Empathy", 1)]
    rfl rfl rfl (by decide) rfl).1

section AggregationLemmas

theorem lookup_addToTable_eq (k : String) (s : ℚ) :
    ∀ t : List (String × ℚ × ℕ),
      lookupStr (addToTable t k s) k
        = some (match lookupStr t k with
                | none => (s, 1)
                | some (a, c) => (a + s, c + 1))
  | [] => by simp [addToTable, lookupStr]
  | (k', tot, cnt) :: rest => by
    by_cases h : k' == k
    · have hk : k' = k := by simpa using h
      simp [addToTable, lookupStr, List.find?_cons, hk]
    · simp only [addToTable, h, if_false]
      have h2 : lookupStr ((k', tot, cnt) :: rest) k = lookupStr rest k := by
        simp [lookupStr, List.find?_cons, h]
      rw [h2, ← lookup_addToTable_eq k s rest]
      simp [lookupStr, List.find?_cons, h]

theorem lookup_addToTable_ne (k k2 : String) (s : ℚ) (hk : ¬ k = k2) :
    ∀ t : List (String × ℚ × ℕ),
      lookupStr (addToTable t k s) k2 = lookupStr t k2
  | [] => by
    have : ¬ (k == k2) = true := by simpa using hk
    simp [addToTable, lookupStr, List.find?_cons, this]
  | (k', tot, cnt) :: rest => by
    by_cases h : k' == k
    · have hk' : k' = k := by simpa using h
      subst hk'
      have : ¬ (k' == k2) = true := by simpa using hk
      simp [addToTable, lookupStr, List.find?_cons, this]
    · have hne : (k' == k) = false := by simpa using h
      by_cases h2 : k' == k2
      · simp [addToTable, lookupStr, List.find?_cons, hne, h2]
      · have hne2 : (k' == k2) = false := by simpa using h2
        simp only [addToTable, hne, Bool.false_eq_true, if_false]
        simp only [lookupStr, List.find?_cons, hne2, cond_false]
        exact lookup_addToTable_ne k k2 s hk rest

theorem buildTable_go_lookup (norm : String → String) (k : String) :
    ∀ (rows : List ScoreRow) (t : List (String × ℚ × ℕ)),
      lookupStr (List.foldl (fun t2 r => addToTable t2 (norm r.2) r.1) t rows) k
        = match lookupStr t k with
          | none =>
            if (rows.filter (fun r => norm r.2 == k)).isEmpty then none
            else some (((rows.filter (fun r => norm r.2 == k)).map Prod.fst).sum,
              (rows.filter (fun r => norm r.2 == k)).length)
          | some (a, c) =>
            some (a + ((rows.filter (fun r => norm r.2 == k)).map Prod.fst).sum,
              c + (rows.filter (fun r => norm r.2 == k)).length)
  | [], t => by
    rcases h : lookupStr t k with _ | p
    · simp [h]
    · rcases p with ⟨a, c⟩
      simp [h]
  | r :: rows, t => by
    rw [List.foldl_cons,
      buildTable_go_lookup norm k rows (addToTable t (norm r.2) r.1)]
    by_cases hk : norm r.2 = k
    · subst hk
      rw [lookup_addToTable_eq (norm r.2) r.1 t]
      rcases h : lookupStr t (norm r.2) with _ | p
      · simp only [h, List.filter_cons, beq_self_eq_true, if_true, List.isEmpty_cons,
          List.map_cons, List.sum_cons, List.length_cons]
        rcases h2 : (rows.filter (fun r2 => norm r2.2 == norm r.2)).isEmpty with _ | _
        · simp only [Bool.false_eq_true, if_false]
          congr 1
          rw [Prod.mk.injEq]
          exact ⟨rfl, by omega⟩
        · have h3 : rows.filter (fun r2 => norm r2.2 == norm r.2) = [] :=
            List.isEmpty_iff.mp h2
          simp [h3]
      · rcases p with ⟨a, c⟩
        simp only [h, List.filter_cons, beq_self_eq_true, if_true,
          List.map_cons, List.sum_cons, List.length_cons]
        congr 1
        rw [Prod.mk.injEq]
        constructor
        · ring
        · omega
    · rw [lookup_addToTable_ne (norm r.2) k r.1 hk t]
      have hbeq : (norm r.2 == k) = false := by simpa using hk
      simp only [List.filter_cons, hbeq, Bool.false_eq_true, if_false]

theorem lookup_map_val {β γ : Type} (g : β → γ) (k : String) :
    ∀ t : List (String × β),
      lookupStr (t.map (fun e => (e.1, g e.2))) k = (lookupStr t k).map g
  | [] => rfl
  | (k', v) :: rest => by
    by_cases h : k' == k
    · simp [lookupStr, List.find?_cons, h]
    · simp only [List.map_cons, lookupStr, List.find?_cons, h, cond_false]
      exact lookup_map_val g k rest

end AggregationLemmas

/-- Counterexample to claim C1 as stated: the saved-responses
aggregation path (`get_result_from_saved_responses`, lines 159-166)
returns the unrounded mean `4/3` where the claim requires
`round(mean, 1) = 1.3`, and it groups under the raw competency name
(`X` preceded by a space) rather than the normalized one. -/
theorem C1_counterexample :
    lookupStr (aggregate_saved [(1, "X"), (1, "X"), (2, "X")]) "X" = some (4/3)
    ∧ round1 (4/3) = 13/10
    ∧ (4/3 : ℚ) ≠ 13/10
    ∧ lookupStr (aggregate_saved [(3, " X")]) " X" = some 3
    ∧ normalizeCompName " X" = "X"
    ∧ lookupStr (aggregate_saved [(3, " X")]) "X" = none := by
  refine ⟨?_, ?_, by norm_num, ?_, by rfl, by rfl⟩
  · have h : lookupStr (aggregate_saved [(1, "X"), (1, "X"), (2, "X")]) "X"
        = some ((1 + 1 + 2 : ℚ) / 3) := rfl
    rw [h]
    norm_num
  · unfold round1 roundHalfEven
    have hfl : ⌊(4/3 : ℚ) * 10⌋ = 13 := by
      rw [Int.floor_eq_iff]
      constructor
      · norm_num
      · norm_num
    rw [hfl]
    norm_num
  · have h : lookupStr (aggregate_saved [(3, " X")]) " X" = some ((3 : ℚ) / 1) := rfl
    rw [h]
    norm_num

/-- Claim C1 (amended): in `submit_responses_and_predict` the
aggregation outputs, per competency, `round(mean, 1)` grouped under the
normalized (trimmed, quote-stripped) competency name, independently of
response order, with zero rows yielding the empty mapping; in
`get_result_from_saved_responses` the aggregation outputs the unrounded
mean grouped under the raw competency name (and that endpoint rejects a
user with zero rows instead of aggregating them). -/
theorem C1_aggregation (rows rows2 : List ScoreRow) (k : String)
    (hperm : rows.Perm rows2) :
    lookupStr (aggregate_submit rows) k
      = (if (rows.filter (fun r => normalizeCompName r.2 == k)).isEmpty then none
         else some (round1
           (((rows.filter (fun r => normalizeCompName r.2 == k)).map Prod.fst).sum
             / ((rows.filter (fun r => normalizeCompName r.2 == k)).length : ℚ))))
    ∧ lookupStr (aggregate_submit rows) k = lookupStr (aggregate_submit rows2) k
    ∧ aggregate_submit [] = []
    ∧ lookupStr (aggregate_saved rows) k
      = (if (rows.filter (fun r => r.2 == k)).isEmpty then none
         else some
           (((rows.filter (fun r => r.2 == k)).map Prod.fst).sum
             / ((rows.filter (fun r => r.2 == k)).length : ℚ))) := by
  have hsubmit : ∀ rs : List ScoreRow,
      lookupStr (aggregate_submit rs) k
        = (if (rs.filter (fun r => normalizeCompName r.2 == k)).isEmpty then none
           else some (round1
             (((rs.filter (fun r => normalizeCompName r.2 == k)).map Prod.fst).sum
               / ((rs.filter (fun r => normalizeCompName r.2 == k)).length : ℚ)))) := by
    intro rs
    unfold aggregate_submit buildTable
    rw [lookup_map_val (fun e : ℚ × ℕ => round1 (e.1 / (e.2 : ℚ))) k,
      buildTable_go_lookup normalizeCompName k rs []]
    have hnil : lookupStr ([] : List (String × ℚ × ℕ)) k = none := rfl
    rw [hnil]
    rcases h : (rs.filter (fun r => normalizeCompName r.2 == k)).isEmpty with _ | _
    · simp only [h, Bool.false_eq_true, if_false]
      rfl
    · simp only [h, if_true]
      rfl
  refine ⟨hsubmit rows, ?_, rfl, ?_⟩
  · rw [hsubmit rows, hsubmit rows2]
    have hfp : (rows.filter (fun r => normalizeCompName r.2 == k)).Perm
        (rows2.filter (fun r => normalizeCompName r.2 == k)) := hperm.filter _
    rw [hfp.length_eq, (hfp.map Prod.fst).sum_eq]
    rcases h1 : (rows.filter (fun r => normalizeCompName r.2 == k)).isEmpty with _ | _
    · have h2 : (rows2.filter (fun r => normalizeCompName r.2 == k)).isEmpty = false := by
        rcases h3 : (rows2.filter (fun r => normalizeCompName r.2 == k)).isEmpty with _ | _
        · exact h3
        · have := List.isEmpty_iff.mp h3
          rw [this] at hfp
          have h4 : rows.filter (fun r => normalizeCompName r.2 == k) = [] :=
            List.Perm.eq_nil hfp
          rw [h4] at h1
          simp at h1
      rw [h1, h2]
    · have h2 : (rows2.filter (fun r => normalizeCompName r.2 == k)).isEmpty = true := by
        have := List.isEmpty_iff.mp h1
        rw [this] at hfp
        have h4 : rows2.filter (fun r => normalizeCompName r.2 == k) = [] :=
          (List.Perm.nil_eq hfp).symm
        simp [h4]
      rw [h1, h2]
  · unfold aggregate_saved buildTable
    rw [lookup_map_val (fun e : ℚ × ℕ => e.1 / (e.2 : ℚ)) k,
      buildTable_go_lookup (fun s => s) k rows []]
    have hnil : lookupStr ([] : List (String × ℚ × ℕ)) k = none := rfl
    rw [hnil]
    rcases h : (rows.filter (fun r => r.2 == k)).isEmpty with _ | _
    · simp only [h, Bool.false_eq_true, if_false]
      rfl
    · simp only [h, if_true]
      rfl

/-- Witness for C1: the submit-path aggregation gives the same value for
a permuted pair of rows. -/
theorem C1_aggregation_witness :
    lookupStr (aggregate_submit [(1, "A"), (2, "B")]) "A"
      = lookupStr (aggregate_submit [(2, "B"), (1, "A")]) "A" :=
  (C1_aggregation [(1, "A"), (2, "B")] [(2, "B"), (1, "A")] "A"
    (List.Perm.swap (2, "B") (1, "A") [])).2.1

section LoaderLemmas

theorem pyMaxBy_go {α : Type} (f : α → ℕ) :
    ∀ (t : List α) (acc : α),
      (List.foldl (fun a y => if f a < f y then y else a) acc t = acc
        ∨ List.foldl (fun a y => if f a < f y then y else a) acc t ∈ t)
      ∧ f acc ≤ f (List.foldl (fun a y => if f a < f y then y else a) acc t)
      ∧ ∀ y ∈ t, f y ≤ f (List.foldl (fun a y2 => if f a < f y2 then y2 else a) acc t)
  | [], acc => ⟨Or.inl rfl, le_refl _, by intro y hy; cases hy⟩
  | z :: t, acc => by
    rw [List.foldl_cons]
    by_cases h : f acc < f z
    · rw [if_pos h]
      rcases pyMaxBy_go f t z with ⟨h1, h2, h3⟩
      refine ⟨?_, le_trans (le_of_lt h) h2, ?_⟩
      · rcases h1 with h1 | h1
        · exact Or.inr (by rw [h1]; exact List.mem_cons_self _ _)
        · exact Or.inr (List.mem_cons_of_mem _ h1)
      · intro y hy
        rcases List.mem_cons.mp hy with hy | hy
        · subst hy
          exact h2
        · exact h3 y hy
    · rw [if_neg h]
      rcases pyMaxBy_go f t acc with ⟨h1, h2, h3⟩
      refine ⟨?_, h2, ?_⟩
      · rcases h1 with h1 | h1
        · exact Or.inl h1
        · exact Or.inr (List.mem_cons_of_mem _ h1)
      · intro y hy
        rcases List.mem_cons.mp hy with hy | hy
        · subst hy
          exact le_trans (not_lt.mp h) h2
        · exact h3 y hy

theorem pyMaxBy_spec {α : Type} (f : α → ℕ) (l : List α) (x : α)
    (h : pyMaxBy f l = some x) : x ∈ l ∧ ∀ y ∈ l, f y ≤ f x := by
  rcases l with _ | ⟨z, t⟩
  · cases h
  · unfold pyMaxBy at h
    have hx := Option.some.inj h
    rcases pyMaxBy_go f t z with ⟨h1, h2, h3⟩
    constructor
    · rw [← hx]
      rcases h1 with h1 | h1
      · rw [h1]
        exact List.mem_cons_self _ _
      · exact List.mem_cons_of_mem _ h1
    · intro y hy
      rcases List.mem_cons.mp hy with hy | hy
      · subst hy
        rw [← hx]
        exact h2
      · rw [← hx]
        exact h3 y hy

end LoaderLemmas

/-- Claim C7: per artifact kind, the loader picks the latest-mtime file
among those matching the optimized pattern, falls back to the legacy
file when no optimized variant exists, and raises `ArtifactMissing`
(aborting the whole load, hence service startup) when neither exists;
the scaler kind has no optimized pattern and its missing legacy file
likewise aborts the load. -/
theorem C7_artifact_selection (store : List StoredFile) :
    (∀ pre suf legacy f,
        pyMaxBy (fun g => g.mtime) (store.filter (fun g => globPS pre suf g.name)) = some f →
        loadOptimizedOrLegacy store pre suf legacy = .ok f
        ∧ f ∈ store.filter (fun g => globPS pre suf g.name)
        ∧ ∀ g ∈ store.filter (fun g2 => globPS pre suf g2.name), g.mtime ≤ f.mtime)
    ∧ (∀ pre suf legacy f, store.filter (fun g => globPS pre suf g.name) = [] →
        findFile store legacy = some f →
        loadOptimizedOrLegacy store pre suf legacy = .ok f)
    ∧ (∀ pre suf legacy, store.filter (fun g => globPS pre suf g.name) = [] →
        findFile store legacy = none →
        loadOptimizedOrLegacy store pre suf legacy = .error (.artifactMissing legacy))
    ∧ (∀ e, loadOptimizedOrLegacy store "lightgbm_optimized_" ".pkl" "best_model.joblib"
          = .error e → loadService store = .error e)
    ∧ (∀ mf, loadOptimizedOrLegacy store "lightgbm_optimized_" ".pkl" "best_model.joblib"
          = .ok mf → findFile store "scaler.joblib" = none →
        loadService store = .error (.artifactMissing "scaler.joblib")) := by
  refine ⟨?_, ?_, ?_, ?_, ?_⟩
  · intro pre suf legacy f hmax
    rcases pyMaxBy_spec (fun g => g.mtime) _ f hmax with ⟨hmem, hle⟩
    refine ⟨?_, hmem, hle⟩
    unfold loadOptimizedOrLegacy
    rw [hmax]
  · intro pre suf legacy f hfilt hfind
    unfold loadOptimizedOrLegacy
    rw [hfilt]
    simp only [pyMaxBy, hfind]
  · intro pre suf legacy hfilt hfind
    unfold loadOptimizedOrLegacy
    rw [hfilt]
    simp only [pyMaxBy, hfind]
  · intro e he
    simp only [loadService, he]
  · intro mf hm hscaler
    simp only [loadService, hm, loadLegacyOnly, hscaler]

/-- Witness for C7: among two optimized classifier files the younger
(larger mtime) one is selected; with no encoder pattern match and no
legacy encoder, loading reports the encoder as missing. -/
theorem C7_artifact_selection_witness :
    loadOptimizedOrLegacy
        [⟨"lightgbm_optimized_a.pkl", 5, .classifierArt ["A"]⟩,
         ⟨"lightgbm_optimized_b.pkl", 9, .classifierArt ["A", "B"]⟩,
         ⟨"best_model.joblib", 1, .classifierArt ["A"]⟩]
        "lightgbm_optimized_" ".pkl" "best_model.joblib"
      = .ok ⟨"lightgbm_optimized_b.pkl", 9, .classifierArt ["A", "B"]⟩
    ∧ loadOptimizedOrLegacy
        [⟨"lightgbm_optimized_a.pkl", 5, .classifierArt ["A"]⟩,
         ⟨"lightgbm_optimized_b.pkl", 9, .classifierArt ["A", "B"]⟩,
         ⟨"best_model.joblib", 1, .classifierArt ["A"]⟩]
        "label_encoder_" ".pkl" "label_encoder.joblib"
      = .error (.artifactMissing "label_encoder.joblib") := by
  constructor
  · exact ((C7_artifact_selection _).1 "lightgbm_optimized_" ".pkl" "best_model.joblib"
      ⟨"lightgbm_optimized_b.pkl", 9, .classifierArt ["A", "B"]⟩ (by decide)).1
  · exact (C7_artifact_selection _).2.2.1 "label_encoder_" ".pkl" "label_encoder.joblib"
      (by decide) (by decide)

/-- Counterexample to claim C6 as stated: a store whose classifier
expects two features and whose scaler expects one feature loads
successfully even though the group-average table yields the canonical
order of three features — the loader performs no cross-artifact
agreement check, so loading does not fail fast on the mismatch. -/
theorem C6_counterexample :
    loadService
        [⟨"best_model.joblib", 0, .classifierArt ["A", "B"]⟩,
         ⟨"scaler.joblib", 0, .scalerArt ["A"]⟩,
         ⟨"label_encoder.joblib", 0, .encoderArt ["Doc"]⟩,
         ⟨"grup_ortalamalari.joblib", 0,
           .grupArt [("Doc", [("A", 1), ("B", 2), ("C", 3)])]⟩]
      = .ok ⟨"best_model.joblib", .classifierArt ["A", "B"],
             "scaler.joblib", .scalerArt ["A"],
             "label_encoder.joblib", .encoderArt ["Doc"],
             [("Doc", [("A", 1), ("B", 2), ("C", 3)])], ["A", "B", "C"]⟩
    ∧ (["A"] : List String) ≠ ["A", "B", "C"]
    ∧ (["A", "B"] : List String) ≠ ["A", "B", "C"] := by
  refine ⟨rfl, by decide, by decide⟩

/-- Claim C6 (amended): the canonical feature order is derived at load
time from the key order of the first entry of the group-average table;
the loader performs no agreement check between the four artifacts, so a
store whose classifier, scaler and encoder artifacts are arbitrary (in
particular, disagreeing about the feature order) still loads
successfully whenever all four files are present and the group-average
table is a non-empty mapping. -/
theorem C6_feature_order_no_check (store : List StoredFile) (b : LoadedBundle)
    (h : loadService store = .ok b) :
    (∃ g0 rest, b.grup = g0 :: rest ∧ b.feature_names = g0.2.map (fun p => p.1))
    ∧ (∀ (mArt sArt eArt : Artifact) (g0 : String × List (String × ℚ))
         (t : List (String × List (String × ℚ))),
        loadService
            [⟨"best_model.joblib", 0, mArt⟩, ⟨"scaler.joblib", 0, sArt⟩,
             ⟨"label_encoder.joblib", 0, eArt⟩,
             ⟨"grup_ortalamalari.joblib", 0, .grupArt (g0 :: t)⟩]
          = .ok ⟨"best_model.joblib", mArt, "scaler.joblib", sArt,
                 "label_encoder.joblib", eArt, g0 :: t, g0.2.map (fun p => p.1)⟩) := by
  constructor
  · unfold loadService at h
    repeat' split at h
    all_goals cases h
    all_goals exact ⟨_, _, rfl, rfl⟩
  · intro mArt sArt eArt g0 t
    rfl

/-- Witness for C6 (amended): loading a concrete coherent store derives
the feature order from the first group-average entry. -/
theorem C6_feature_order_no_check_witness :
    loadService
        [⟨"best_model.joblib", 0, .classifierArt ["X", "Y"]⟩,
         ⟨"scaler.joblib", 0, .scalerArt ["X", "Y"]⟩,
         ⟨"label_encoder.joblib", 0, .encoderArt ["Doc"]⟩,
         ⟨"grup_ortalamalari.joblib", 0, .grupArt [("Doc", [("X", 1), ("Y", 2)])]⟩]
      = .ok ⟨"best_model.joblib", .classifierArt ["X", "Y"],
             "scaler.joblib", .scalerArt ["X", "Y"],
             "label_encoder.joblib", .encoderArt ["Doc"],
             [("Doc", [("X", 1), ("Y", 2)])], ["X", "Y"]⟩ := by
  have h := (C6_feature_order_no_check
    [⟨"best_model.joblib", 0, .classifierArt ["X", "Y"]⟩,
     ⟨"scaler.joblib", 0, .scalerArt ["X", "Y"]⟩,
     ⟨"label_encoder.joblib", 0, .encoderArt ["Doc"]⟩,
     ⟨"grup_ortalamalari.joblib", 0, .grupArt [("Doc", [("X", 1), ("Y", 2)])]⟩]
    ⟨"best_model.joblib", .classifierArt ["X", "Y"],
     "scaler.joblib", .scalerArt ["X", "Y"],
     "label_encoder.joblib", .encoderArt ["Doc"],
     [("Doc", [("X", 1), ("Y", 2)])], ["X", "Y"]⟩ rfl).2
  exact h (.classifierArt ["X", "Y"]) (.scalerArt ["X", "Y"]) (.encoderArt ["Doc"])
    ("Doc", [("X", 1), ("Y", 2)]) []

section LetterLemmas

theorem findIdx_id_of_get? :
    ∀ (l : List OptionRow) (K : ℕ) (o : OptionRow),
      (l.map (fun x => x.scenariooptionid)).Nodup → l.get? K = some o →
      l.findIdx (fun x => x.scenariooptionid == o.scenariooptionid) = K
  | [], K, o, _, h => by simp at h
  | x :: t, 0, o, _, h => by
    have hx : x = o := Option.some.inj h
    subst hx
    rw [List.findIdx_cons]
    simp
  | x :: t, K + 1, o, hnd, h => by
    have ht : t.get? K = some o := h
    have hmem : o ∈ t := List.get?_mem ht
    have hnd2 := List.nodup_cons.mp hnd
    have hne : ¬ x.scenariooptionid = o.scenariooptionid := by
      intro he
      apply hnd2.1
      show x.scenariooptionid ∈ List.map (fun y => y.scenariooptionid) t
      rw [he]
      exact List.mem_map_of_mem _ hmem
    have hne2 : (x.scenariooptionid == o.scenariooptionid) = false := by
      simpa using hne
    rw [List.findIdx_cons, hne2]
    simp only [cond_false]
    rw [findIdx_id_of_get? t K o hnd2.2 ht]

theorem find?_id_of_mem :
    ∀ (l : List OptionRow) (o : OptionRow),
      (l.map (fun x => x.scenariooptionid)).Nodup → o ∈ l →
      l.find? (fun x => x.scenariooptionid == o.scenariooptionid) = some o
  | [], o, _, hmem => by cases hmem
  | x :: t, o, hnd, hmem => by
    have hnd2 := List.nodup_cons.mp hnd
    rcases List.mem_cons.mp hmem with h | h
    · subst h
      simp [List.find?_cons]
    · have hne : ¬ x.scenariooptionid = o.scenariooptionid := by
        intro he
        apply hnd2.1
        show x.scenariooptionid ∈ List.map (fun y => y.scenariooptionid) t
        rw [he]
        exact List.mem_map_of_mem _ h
      have hne2 : (x.scenariooptionid == o.scenariooptionid) = false := by
        simpa using hne
      rw [List.find?_cons, hne2]
      simp only [cond_false]
      exact find?_id_of_mem t o hnd2.2 h

theorem sortedOptionsFor_mem (db : DB) (sid : ℕ) (o : OptionRow) :
    o ∈ sortedOptionsFor db sid ↔ o ∈ db.options ∧ o.scenarioid = sid := by
  unfold sortedOptionsFor
  rw [(List.perm_insertionSort optionIdLe _).mem_iff, List.mem_filter]
  constructor
  · intro ⟨h1, h2⟩
    exact ⟨h1, by simpa using h2⟩
  · intro ⟨h1, h2⟩
    exact ⟨h1, by simpa using h2⟩

theorem sortedOptionsFor_nodup (db : DB) (sid : ℕ)
    (hid : (db.options.map (fun o => o.scenariooptionid)).Nodup) :
    ((sortedOptionsFor db sid).map (fun o => o.scenariooptionid)).Nodup := by
  unfold sortedOptionsFor
  have hperm := (List.perm_insertionSort optionIdLe
    (db.options.filter (fun o => o.scenarioid == sid))).map
    (fun o => o.scenariooptionid)
  rw [hperm.nodup_iff]
  exact ((List.filter_sublist db.options).map _).nodup hid

end LetterLemmas

/-- Counterexample to claim C9 as stated: the lowercase letter `a` is a
valid submission (`convert_option_letter_to_scenariooptionid` is
case-insensitive and accepts it), but the round trip re-derives the
uppercase display letter `A`, so the round trip is not the identity on
every valid letter. -/
theorem C9_counterexample :
    convert_option_letter_to_scenariooptionid
        { options := [⟨10, 1, "t1", 1⟩, ⟨11, 1, "t2", 2⟩, ⟨12, 1, "t3", 3⟩],
          responses := [] } 1 "a" = .ok 10
    ∧ roundTripLetter
        { options := [⟨10, 1, "t1", 1⟩, ⟨11, 1, "t2", 2⟩, ⟨12, 1, "t3", 3⟩],
          responses := [] } 1 "a"
      = .ok (Char.ofNat 65)
    ∧ "a".toList = [Char.ofNat 97]
    ∧ Char.ofNat 65 ≠ Char.ofNat 97 := by
  refine ⟨rfl, rfl, by decide, by decide⟩

/-- Claim C9 (amended): with options ordered by their stable identifier,
the Kth option is served with display letter `chr(65+K)` and the score
transformation re-derives the same letter `chr(65+K)` for it; submitting
the letter `chr(65+K)` converts back to the Kth option whenever that
character is its own uppercase (the conversion uppercases its input, so
for lowercase letters it targets the uppercase position instead); and
the round trip submitted letter to stored option to re-derived letter
returns the uppercase of the submitted character — hence is the
identity exactly on letters that are their own uppercase. -/
theorem C9_letter_mapping (db : DB)
    (hid : (db.options.map (fun o => o.scenariooptionid)).Nodup)
    (sid K : ℕ) (o : OptionRow) (c : Char)
    (hK : (sortedOptionsFor db sid).get? K = some o)
    (hc : c.toNat = 65 + K) :
    (options_with_letters db sid).get? K = some (Char.ofNat (65 + K), o.optiontext)
    ∧ derivedLetter db o = Char.ofNat (65 + K)
    ∧ List.Sorted optionIdLe (sortedOptionsFor db sid)
    ∧ (c.toUpper = c →
        convert_option_letter_to_scenariooptionid db sid (String.singleton c)
          = .ok o.scenariooptionid)
    ∧ (∀ (letter : String) (ch : Char) (oid : ℕ), letter.toList = [ch] →
        convert_option_letter_to_scenariooptionid db sid letter = .ok oid →
        roundTripLetter db sid letter = .ok ch.toUpper) := by
  have hmem : o ∈ sortedOptionsFor db sid := List.get?_mem hK
  have hosid : o.scenarioid = sid := ((sortedOptionsFor_mem db sid o).mp hmem).2
  have hnd := sortedOptionsFor_nodup db sid hid
  have hKlt : K < (sortedOptionsFor db sid).length := by
    rcases List.get?_eq_some.mp hK with ⟨h, _⟩
    exact h
  have hnil : ¬ sortedOptionsFor db sid = [] := by
    intro h0
    rw [h0] at hK
    simp at hK
  refine ⟨?_, ?_, List.sorted_insertionSort optionIdLe _, ?_, ?_⟩
  · unfold options_with_letters
    rw [List.get?_map, List.get?_enum, hK]
    rfl
  · unfold derivedLetter optionIndexInScenario
    rw [hosid, findIdx_id_of_get? _ K o hnd hK]
  · intro hupper
    unfold convert_option_letter_to_scenariooptionid
    simp only [hnil, if_false]
    have hlt : (String.singleton c).toList = [c] := rfl
    rw [hlt]
    dsimp only
    rw [hupper]
    have hin : 0 ≤ (c.toNat : ℤ) - 65 ∧ (c.toNat : ℤ) - 65
        < ((sortedOptionsFor db sid).length : ℤ) := by
      rw [hc]
      push_cast
      omega
    rw [if_pos hin, hc]
    have htn : ((65 + K : ℕ) : ℤ) - 65 = (K : ℤ) := by
      push_cast
      ring
    rw [htn]
    have htn2 : (K : ℤ).toNat = K := Int.toNat_natCast K
    rw [htn2]
    rw [List.getD_eq_get?, hK]
    rfl
  · intro letter ch oid hlt hconv
    have hconv0 := hconv
    unfold convert_option_letter_to_scenariooptionid at hconv
    simp only [hnil, if_false] at hconv
    rw [hlt] at hconv
    dsimp only at hconv
    by_cases hin : 0 ≤ (ch.toUpper.toNat : ℤ) - 65 ∧ (ch.toUpper.toNat : ℤ) - 65
        < ((sortedOptionsFor db sid).length : ℤ)
    · rw [if_pos hin] at hconv
      have hoid := (Except.ok.inj hconv).symm
      have hK2lt : ((ch.toUpper.toNat : ℤ) - 65).toNat
          < (sortedOptionsFor db sid).length := by
        omega
      have hg : (sortedOptionsFor db sid).get? ((ch.toUpper.toNat : ℤ) - 65).toNat
          = some ((sortedOptionsFor db sid).getD
              ((ch.toUpper.toNat : ℤ) - 65).toNat default) := by
        rw [List.getD_eq_get?]
        rw [List.get?_eq_getElem?, List.getElem?_eq_getElem hK2lt]
        rfl
      have hmem2 : (sortedOptionsFor db sid).getD
          ((ch.toUpper.toNat : ℤ) - 65).toNat default ∈ sortedOptionsFor db sid :=
        List.get?_mem hg
      have hmem3 := (sortedOptionsFor_mem db sid _).mp hmem2
      unfold roundTripLetter
      rw [hconv0, hoid]
      dsimp only
      rw [find?_id_of_mem db.options _ hid hmem3.1]
      unfold derivedLetter optionIndexInScenario
      dsimp only
      rw [hmem3.2, findIdx_id_of_get? _ _ _ hnd hg]
      have h65 : 65 + ((ch.toUpper.toNat : ℤ) - 65).toNat = ch.toUpper.toNat := by
        omega
      rw [h65, Char.ofNat_toNat]
    · rw [if_neg hin] at hconv
      cases hconv

/-- Witness for C9 (amended): in a three-option scenario, the third
option (index 2, ids sorted as 10, 11, 12) is served as letter `C`,
re-derived as `C`, and converting `C` returns its id. -/
theorem C9_letter_mapping_witness :
    convert_option_letter_to_scenariooptionid
        { options := [⟨11, 1, "t2", 2⟩, ⟨10, 1, "t1", 1⟩, ⟨12, 1, "t3", 3⟩],
          responses := [] } 1 (String.singleton (Char.ofNat 67)) = .ok 12
    ∧ derivedLetter
        { options := [⟨11, 1, "t2", 2⟩, ⟨10, 1, "t1", 1⟩, ⟨12, 1, "t3", 3⟩],
          responses := [] } ⟨12, 1, "t3", 3⟩ = Char.ofNat 67 := by
  have h := C9_letter_mapping
    { options := [⟨11, 1, "t2", 2⟩, ⟨10, 1, "t1", 1⟩, ⟨12, 1, "t3", 3⟩],
      responses := [] }
    (by decide) 1 2 ⟨12, 1, "t3", 3⟩ (Char.ofNat 67) (by decide) (by decide)
  exact ⟨h.2.2.2.1 (by decide), h.2.1⟩


section SaveLemmas

theorem find?_append_split {α : Type} (p : α → Bool) :
    ∀ l1 l2 : List α,
      (l1 ++ l2).find? p
        = match l1.find? p with
          | some y => some y
          | none => l2.find? p
  | [], l2 => rfl
  | y :: t, l2 => by
    by_cases hy : p y
    · simp [List.find?_cons, hy]
    · have hy2 : p y = false := by simpa using hy
      simp only [List.cons_append, List.find?_cons, hy2]
      exact find?_append_split p t l2

theorem upsertResp_keys (acc : List ResponseIn) (r : ResponseIn) :
    (upsertResp acc r).map (fun x => x.scenario_id)
      = if acc.any (fun x => x.scenario_id == r.scenario_id)
        then acc.map (fun x => x.scenario_id)
        else acc.map (fun x => x.scenario_id) ++ [r.scenario_id] := by
  unfold upsertResp
  by_cases h : acc.any (fun x => x.scenario_id == r.scenario_id)
  · rw [if_pos h, if_pos h, List.map_map]
    apply List.map_congr_left
    intro x _
    by_cases hx : x.scenario_id == r.scenario_id
    · have hxe : x.scenario_id = r.scenario_id := by simpa using hx
      simp [Function.comp, hx, hxe]
    · have hx2 : (x.scenario_id == r.scenario_id) = false := by simpa using hx
      simp [Function.comp, hx2]
  · rw [if_neg h, if_neg h, List.map_append]
    rfl

theorem dedupe_go_nodup :
    ∀ (rs acc : List ResponseIn),
      (acc.map (fun x => x.scenario_id)).Nodup →
      ((List.foldl upsertResp acc rs).map (fun x => x.scenario_id)).Nodup
  | [], _, h => h
  | r :: rs, acc, h => by
    rw [List.foldl_cons]
    apply dedupe_go_nodup rs
    rw [upsertResp_keys]
    by_cases hany : acc.any (fun x => x.scenario_id == r.scenario_id)
    · rw [if_pos hany]
      exact h
    · rw [if_neg hany]
      rw [List.nodup_append]
      refine ⟨h, List.nodup_singleton _, ?_⟩
      intro a ha hb
      rw [List.mem_singleton] at hb
      subst hb
      rcases List.mem_map.mp ha with ⟨x, hx, hxe⟩
      rw [List.any_eq_true] at hany
      exact hany ⟨x, hx, by simp [hxe]⟩

theorem dedupe_keys_nodup (rs : List ResponseIn) :
    ((dedupeByScenario rs).map (fun x => x.scenario_id)).Nodup :=
  dedupe_go_nodup rs [] List.nodup_nil

theorem find?_map_replace_eq (r : ResponseIn) :
    ∀ acc : List ResponseIn,
      acc.any (fun x => x.scenario_id == r.scenario_id) = true →
      (acc.map (fun x => if x.scenario_id == r.scenario_id then r else x)).find?
          (fun x => x.scenario_id == r.scenario_id)
        = some r
  | [], h => by simp at h
  | y :: t, h => by
    by_cases hy : y.scenario_id == r.scenario_id
    · have hye : y.scenario_id = r.scenario_id := by simpa using hy
      simp [List.find?_cons, hye]
    · have hy2 : (y.scenario_id == r.scenario_id) = false := by simpa using hy
      have ht : t.any (fun x => x.scenario_id == r.scenario_id) = true := by
        rw [List.any_cons, hy2] at h
        simpa using h
      simp only [List.map_cons, hy2, Bool.false_eq_true, if_false, List.find?_cons, hy2]
      exact find?_map_replace_eq r t ht

theorem find?_map_replace_ne (r : ResponseIn) (sid : ℕ) (hne : ¬ r.scenario_id = sid) :
    ∀ acc : List ResponseIn,
      (acc.map (fun x => if x.scenario_id == r.scenario_id then r else x)).find?
          (fun x => x.scenario_id == sid)
        = acc.find? (fun x => x.scenario_id == sid)
  | [] => rfl
  | y :: t => by
    have hr : (r.scenario_id == sid) = false := by simpa using hne
    by_cases hy : y.scenario_id == r.scenario_id
    · have hye : y.scenario_id = r.scenario_id := by simpa using hy
      have hys : (y.scenario_id == sid) = false := by
        rw [hye]
        exact hr
      simp only [List.map_cons, hy, if_true, List.find?_cons, hr, hys]
      exact find?_map_replace_ne r sid hne t
    · have hy2 : (y.scenario_id == r.scenario_id) = false := by simpa using hy
      simp only [List.map_cons, hy2, Bool.false_eq_true, if_false, List.find?_cons]
      rcases hys : (y.scenario_id == sid) with _ | _
      · exact find?_map_replace_ne r sid hne t
      · rfl

theorem find?_upsert_eq (acc : List ResponseIn) (r : ResponseIn) :
    (upsertResp acc r).find? (fun x => x.scenario_id == r.scenario_id) = some r := by
  unfold upsertResp
  by_cases hany : acc.any (fun x => x.scenario_id == r.scenario_id)
  · rw [if_pos hany]
    exact find?_map_replace_eq r acc hany
  · rw [if_neg hany]
    rw [find?_append_split]
    have hnone : acc.find? (fun x => x.scenario_id == r.scenario_id) = none := by
      rw [List.find?_eq_none]
      intro x hx hpx
      rw [List.any_eq_true] at hany
      exact hany ⟨x, hx, hpx⟩
    rw [hnone]
    simp [List.find?_cons]

theorem find?_upsert_ne (acc : List ResponseIn) (r : ResponseIn) (sid : ℕ)
    (hne : ¬ r.scenario_id = sid) :
    (upsertResp acc r).find? (fun x => x.scenario_id == sid)
      = acc.find? (fun x => x.scenario_id == sid) := by
  unfold upsertResp
  by_cases hany : acc.any (fun x => x.scenario_id == r.scenario_id)
  · rw [if_pos hany]
    exact find?_map_replace_ne r sid hne acc
  · rw [if_neg hany]
    rw [find?_append_split]
    have hr : (r.scenario_id == sid) = false := by simpa using hne
    rcases h : acc.find? (fun x => x.scenario_id == sid) with _ | y
    · rw [h]
      simp [List.find?_cons, hr]
    · rw [h]

theorem dedupe_find?_last (rs : List ResponseIn) (sid : ℕ) :
    (dedupeByScenario rs).find? (fun r => r.scenario_id == sid)
      = rs.reverse.find? (fun r => r.scenario_id == sid) := by
  induction rs using List.reverseRecOn with
  | nil => rfl
  | append_singleton rs r ih =>
    unfold dedupeByScenario
    rw [List.foldl_append, List.foldl_cons, List.foldl_nil, List.reverse_append]
    simp only [List.reverse_singleton, List.singleton_append, List.find?_cons]
    by_cases hr : r.scenario_id == sid
    · have hre : r.scenario_id = sid := by simpa using hr
      rw [hr]
      subst hre
      exact find?_upsert_eq _ r
    · have hr2 : (r.scenario_id == sid) = false := by simpa using hr
      rw [hr2]
      rw [find?_upsert_ne _ r sid (by simpa using hr)]
      exact ih

end SaveLemmas

section SaveLemmas2

theorem convertAll_forall2 (db : DB) (u : ℕ) :
    ∀ (rs : List ResponseIn) (rows : List RespRow),
      convertAll db u rs = .ok rows →
      List.Forall₂ (fun (r : ResponseIn) (row : RespRow) =>
        row.userid = u
        ∧ convert_option_letter_to_scenariooptionid db r.scenario_id r.option_letter
            = .ok row.scenariooptionid) rs rows
  | [], rows, h => by
    have h2 : ([] : List RespRow) = rows := Except.ok.inj h
    rw [← h2]
    exact List.Forall₂.nil
  | r :: rs, rows, h => by
    unfold convertAll at h
    rcases hc : convert_option_letter_to_scenariooptionid db r.scenario_id r.option_letter
      with e | oid
    · rw [hc] at h
      cases h
    · rw [hc] at h
      rcases hrec : convertAll db u rs with e | rest
      · rw [hrec] at h
        cases h
      · rw [hrec] at h
        have h2 : (⟨u, oid⟩ : RespRow) :: rest = rows := Except.ok.inj h
        rw [← h2]
        exact List.Forall₂.cons ⟨rfl, hc⟩ (convertAll_forall2 db u rs rest hrec)

theorem convert_scenario (db : DB)
    (hid : (db.options.map (fun o => o.scenariooptionid)).Nodup)
    (sid : ℕ) (letter : String) (oid : ℕ)
    (h : convert_option_letter_to_scenariooptionid db sid letter = .ok oid) :
    optionScenario? db oid = some sid := by
  unfold convert_option_letter_to_scenariooptionid at h
  by_cases hnil : sortedOptionsFor db sid = []
  · rw [if_pos hnil] at h
    cases h
  · rw [if_neg hnil] at h
    rcases hlt : letter.toList with _ | ⟨c, rest⟩
    · rw [hlt] at h
      simp at h
    · rcases rest with _ | ⟨c2, rest2⟩
      · rw [hlt] at h
        dsimp only at h
        by_cases hin : 0 ≤ (c.toUpper.toNat : ℤ) - 65 ∧ (c.toUpper.toNat : ℤ) - 65
            < ((sortedOptionsFor db sid).length : ℤ)
        · rw [if_pos hin] at h
          have hoid := (Except.ok.inj h).symm
          have hK2lt : ((c.toUpper.toNat : ℤ) - 65).toNat
              < (sortedOptionsFor db sid).length := by
            omega
          have hg : (sortedOptionsFor db sid).get? ((c.toUpper.toNat : ℤ) - 65).toNat
              = some ((sortedOptionsFor db sid).getD
                  ((c.toUpper.toNat : ℤ) - 65).toNat default) := by
            rw [List.getD_eq_get?, List.get?_eq_getElem?, List.getElem?_eq_getElem hK2lt]
            rfl
          have hmem2 := (sortedOptionsFor_mem db sid _).mp (List.get?_mem hg)
          unfold optionScenario?
          rw [hoid, find?_id_of_mem db.options _ hid hmem2.1]
          show some ((sortedOptionsFor db sid).getD
              ((c.toUpper.toNat : ℤ) - 65).toNat default).scenarioid = some sid
          rw [hmem2.2]
        · rw [if_neg hin] at h
          cases h
      · rw [hlt] at h
        simp at h

theorem untouched_imp_not_delete (db : DB) (u : ℕ) (sids : List ℕ) (x : RespRow)
    (hid : (db.options.map (fun o => o.scenariooptionid)).Nodup)
    (h : untouchedBy db u sids x = true) : deleteCond db u sids x = false := by
  rcases hd : deleteCond db u sids x with _ | _
  · rfl
  · exfalso
    unfold deleteCond at hd
    rw [Bool.and_eq_true] at hd
    rcases hd with ⟨hu, hany⟩
    rw [List.any_eq_true] at hany
    rcases hany with ⟨orow, homem, hprop⟩
    rw [Bool.and_eq_true] at hprop
    rcases hprop with ⟨hoid, hcont⟩
    have hoide : orow.scenariooptionid = x.scenariooptionid := by simpa using hoid
    have hsc : optionScenario? db x.scenariooptionid = some orow.scenarioid := by
      unfold optionScenario?
      rw [← hoide, find?_id_of_mem db.options orow hid homem]
      rfl
    have hmemsid : orow.scenarioid ∈ sids := by
      rw [List.contains_eq_any_beq, List.any_eq_true] at hcont
      rcases hcont with ⟨a, hamem, hae⟩
      have hea : orow.scenarioid = a := by simpa using hae
      rw [hea]
      exact hamem
    unfold untouchedBy at h
    rw [Bool.not_eq_true', Bool.and_eq_false_iff] at h
    rcases h with h | h
    · rw [hu] at h
      cases h
    · rw [List.any_eq_false] at h
      exact h orow.scenarioid hmemsid (by rw [hsc]; exact beq_self_eq_true _)

theorem kept_matches_empty (db : DB) (u : ℕ) (sids : List ℕ) (sid : ℕ) (x : RespRow)
    (hid : (db.options.map (fun o => o.scenariooptionid)).Nodup)
    (hsid : sid ∈ sids)
    (hkept : deleteCond db u sids x = false)
    (hmatch : respMatches db u sid x = true) : False := by
  unfold respMatches at hmatch
  rw [Bool.and_eq_true] at hmatch
  rcases hmatch with ⟨hu, hsc⟩
  have hsc2 : optionScenario? db x.scenariooptionid = some sid := by
    rwa [beq_iff_eq] at hsc
  unfold optionScenario? at hsc2
  rcases hfind : db.options.find? (fun o => o.scenariooptionid == x.scenariooptionid)
    with _ | orow
  · rw [hfind] at hsc2
    cases hsc2
  · rw [hfind] at hsc2
    have hose : orow.scenarioid = sid := by simpa using hsc2
    unfold deleteCond at hkept
    rw [Bool.and_eq_false_iff] at hkept
    rcases hkept with h | h
    · rw [hu] at h
      cases h
    · rw [List.any_eq_false] at h
      have h2pre := h orow (List.mem_of_find?_eq_some hfind)
      have h2 : (orow.scenariooptionid == x.scenariooptionid
          && sids.contains orow.scenarioid) = false := by simpa using h2pre
      rw [Bool.and_eq_false_iff] at h2
      rcases h2 with h2 | h2
      · have h3 := List.find?_some hfind
        rw [h3] at h2
        cases h2
      · have hc : sids.contains orow.scenarioid = true := by
          rw [List.contains_eq_any_beq, List.any_eq_true]
          exact ⟨sid, hsid, by rw [hose]; exact beq_self_eq_true _⟩
        rw [hc] at h2
        cases h2

end SaveLemmas2

section SaveLemmas3

theorem newRows_matches_empty (db : DB) (u : ℕ)
    (hid : (db.options.map (fun o => o.scenariooptionid)).Nodup)
    {uq : List ResponseIn} {nw : List RespRow}
    (hF : List.Forall₂ (fun (r : ResponseIn) (row : RespRow) =>
        row.userid = u
        ∧ convert_option_letter_to_scenariooptionid db r.scenario_id r.option_letter
            = .ok row.scenariooptionid) uq nw) :
    ∀ sid, ¬ sid ∈ uq.map (fun r => r.scenario_id) →
      nw.filter (respMatches db u sid) = [] := by
  induction hF with
  | nil =>
    intro sid hn
    rfl
  | @cons r row uq2 nw2 h1 h2 ih =>
    intro sid hn
    have hsc := convert_scenario db hid r.scenario_id r.option_letter
      row.scenariooptionid h1.2
    have hne : ¬ r.scenario_id = sid := by
      intro he
      exact hn (by
        rw [List.map_cons, ← he]
        exact List.mem_cons_self _ _)
    have hmf : respMatches db u sid row = false := by
      unfold respMatches
      rw [hsc]
      have hb : (some r.scenario_id == some sid) = false := by simpa using hne
      rw [hb, Bool.and_false]
    rw [List.filter_cons, hmf]
    simp only [Bool.false_eq_true, if_false]
    exact ih sid (by
      intro hmem
      exact hn (by
        rw [List.map_cons]
        exact List.mem_cons_of_mem _ hmem))

theorem newRows_matches_mem (db : DB) (u : ℕ)
    (hid : (db.options.map (fun o => o.scenariooptionid)).Nodup)
    {uq : List ResponseIn} {nw : List RespRow}
    (hF : List.Forall₂ (fun (r : ResponseIn) (row : RespRow) =>
        row.userid = u
        ∧ convert_option_letter_to_scenariooptionid db r.scenario_id r.option_letter
            = .ok row.scenariooptionid) uq nw) :
    (uq.map (fun r => r.scenario_id)).Nodup →
    ∀ r ∈ uq, ∃ oid,
      convert_option_letter_to_scenariooptionid db r.scenario_id r.option_letter = .ok oid
      ∧ nw.filter (respMatches db u r.scenario_id) = [⟨u, oid⟩] := by
  induction hF with
  | nil =>
    intro _ r hr
    cases hr
  | @cons r2 row uq2 nw2 h1 h2 ih =>
    intro hnd r hr
    rw [List.map_cons, List.nodup_cons] at hnd
    have hsc := convert_scenario db hid r2.scenario_id r2.option_letter
      row.scenariooptionid h1.2
    rcases List.mem_cons.mp hr with he | he
    · subst he
      refine ⟨row.scenariooptionid, h1.2, ?_⟩
      have hmt : respMatches db u r.scenario_id row = true := by
        unfold respMatches
        rw [hsc]
        have hbu : (row.userid == u) = true := by
          rw [h1.1]
          exact beq_self_eq_true _
        rw [hbu, Bool.true_and]
        exact beq_self_eq_true _
      rw [List.filter_cons, hmt, if_pos rfl]
      have hrest : nw2.filter (respMatches db u r.scenario_id) = [] :=
        newRows_matches_empty db u hid h2 r.scenario_id hnd.1
      rw [hrest]
      rcases row with ⟨ru, ro⟩
      have hru : ru = u := h1.1
      rw [hru]
    · have hne : ¬ r2.scenario_id = r.scenario_id := by
        intro hee
        exact hnd.1 (hee ▸ List.mem_map_of_mem (fun x => x.scenario_id) he)
      have hmf : respMatches db u r.scenario_id row = false := by
        unfold respMatches
        rw [hsc]
        have hb : (some r2.scenario_id == some r.scenario_id) = false := by
          simpa using hne
        rw [hb, Bool.and_false]
      rw [List.filter_cons, hmf]
      simp only [Bool.false_eq_true, if_false]
      exact ih hnd.2 r he

theorem newRows_untouched (db : DB) (u : ℕ) (sids : List ℕ)
    (hid : (db.options.map (fun o => o.scenariooptionid)).Nodup)
    {uq : List ResponseIn} {nw : List RespRow}
    (hF : List.Forall₂ (fun (r : ResponseIn) (row : RespRow) =>
        row.userid = u
        ∧ convert_option_letter_to_scenariooptionid db r.scenario_id r.option_letter
            = .ok row.scenariooptionid) uq nw) :
    (∀ r ∈ uq, r.scenario_id ∈ sids) →
    nw.filter (untouchedBy db u sids) = [] := by
  induction hF with
  | nil =>
    intro _
    rfl
  | @cons r row uq2 nw2 h1 h2 ih =>
    intro hsub
    have hsc := convert_scenario db hid r.scenario_id r.option_letter
      row.scenariooptionid h1.2
    have huf : untouchedBy db u sids row = false := by
      unfold untouchedBy
      rw [Bool.not_eq_false']
      rw [Bool.and_eq_true]
      constructor
      · rw [h1.1]
        exact beq_self_eq_true _
      · rw [List.any_eq_true]
        refine ⟨r.scenario_id, hsub r (List.mem_cons_self _ _), ?_⟩
        rw [hsc]
        exact beq_self_eq_true _
    rw [List.filter_cons, huf]
    simp only [Bool.false_eq_true, if_false]
    exact ih (fun r2 hr2 => hsub r2 (List.mem_cons_of_mem _ hr2))

end SaveLemmas3

theorem newRows_other_user (db : DB) (u u2 sid : ℕ) (hne : ¬ u2 = u)
    {uq : List ResponseIn} {nw : List RespRow}
    (hF : List.Forall₂ (fun (r : ResponseIn) (row : RespRow) =>
        row.userid = u
        ∧ convert_option_letter_to_scenariooptionid db r.scenario_id r.option_letter
            = .ok row.scenariooptionid) uq nw) :
    nw.filter (respMatches db u2 sid) = [] := by
  induction hF with
  | nil => rfl
  | @cons r row uq2 nw2 h1 h2 ih =>
    have hmf : respMatches db u2 sid row = false := by
      unfold respMatches
      have hb : (row.userid == u2) = false := by
        rw [h1.1]
        simpa using fun he => hne he.symm
      rw [hb, Bool.false_and]
    rw [List.filter_cons, hmf]
    simp only [Bool.false_eq_true, if_false]
    exact ih

/-- Claim C8: after a successful `save_user_responses`, every scenario
in the (scenario-deduplicated, last-write-wins) batch has exactly one
stored response for the user, holding the converted option of the last
submitted answer for that scenario; responses of other users or of
scenarios outside the batch are untouched; the at-most-one-response-per
(user, scenario) invariant is preserved; and a failed call leaves the
stored state unchanged (transaction rollback). -/
theorem C8_save_replace_semantics (db : DB) (responses : List ResponseIn) (u : ℕ)
    (hid : (db.options.map (fun o => o.scenariooptionid)).Nodup)
    (hpre : ∀ u2 sid, respCount db u2 sid ≤ 1) :
    (∀ db2 n, save_user_responses db responses u = .ok (db2, n) →
        db2.options = db.options
        ∧ (∀ r ∈ dedupeByScenario responses, ∃ oid,
            convert_option_letter_to_scenariooptionid db r.scenario_id r.option_letter
              = .ok oid
            ∧ db2.responses.filter (respMatches db u r.scenario_id) = [⟨u, oid⟩])
        ∧ db2.responses.filter
              (untouchedBy db u ((dedupeByScenario responses).map (fun r => r.scenario_id)))
            = db.responses.filter
              (untouchedBy db u ((dedupeByScenario responses).map (fun r => r.scenario_id)))
        ∧ (∀ u2 sid, (db2.responses.filter (respMatches db u2 sid)).length ≤ 1))
    ∧ (∀ sid, (dedupeByScenario responses).find? (fun r => r.scenario_id == sid)
        = responses.reverse.find? (fun r => r.scenario_id == sid))
    ∧ (∀ e, save_user_responses db responses u = .error e →
        save_user_responses_state db responses u = db) := by
  refine ⟨?_, fun sid => dedupe_find?_last responses sid, ?_⟩
  swap
  · intro e he
    unfold save_user_responses_state
    rw [he]
  · intro db2 n hsave
    simp only [save_user_responses] at hsave
    rcases hconv : convertAll db u (dedupeByScenario responses) with e | newRows
    · rw [hconv] at hsave
      cases hsave
    · rw [hconv] at hsave
      have hinj := Except.ok.inj hsave
      have hdb2 := congrArg Prod.fst hinj
      dsimp only at hdb2
      subst hdb2
      have F := convertAll_forall2 db u _ _ hconv
      have hkeptempty : ∀ sid, sid ∈ (dedupeByScenario responses).map
          (fun r2 => r2.scenario_id) →
          (db.responses.filter (fun r => !(deleteCond db u
            ((dedupeByScenario responses).map (fun r2 => r2.scenario_id)) r))).filter
            (respMatches db u sid) = [] := by
        intro sid hsid
        rw [List.filter_eq_nil_iff]
        intro x hx hmatch
        have hmem := List.mem_filter.mp hx
        have hdelf : deleteCond db u
            ((dedupeByScenario responses).map (fun r2 => r2.scenario_id)) x = false := by
          have hb := hmem.2
          rwa [Bool.not_eq_true'] at hb
        exact kept_matches_empty db u _ sid x hid hsid hdelf hmatch
      refine ⟨rfl, ?_, ?_, ?_⟩
      · intro r hr
        obtain ⟨oid, hcv, hfilt⟩ := newRows_matches_mem db u hid F
          (dedupe_keys_nodup responses) r hr
        refine ⟨oid, hcv, ?_⟩
        rw [List.filter_append]
        rw [hkeptempty r.scenario_id (List.mem_map_of_mem _ hr), hfilt, List.nil_append]
      · rw [List.filter_append]
        have hnewemp : newRows.filter (untouchedBy db u
            ((dedupeByScenario responses).map (fun r2 => r2.scenario_id))) = [] :=
          newRows_untouched db u _ hid F (fun r2 hr2 => List.mem_map_of_mem _ hr2)
        rw [hnewemp, List.append_nil, List.filter_filter]
        apply List.filter_congr
        intro x _
        by_cases hu : untouchedBy db u
            ((dedupeByScenario responses).map (fun r2 => r2.scenario_id)) x
        · rw [hu, Bool.true_and]
          have hdel := untouched_imp_not_delete db u _ x hid hu
          rw [hdel]
          rfl
        · have hu2 : untouchedBy db u
              ((dedupeByScenario responses).map (fun r2 => r2.scenario_id)) x = false := by
            simpa using hu
          rw [hu2, Bool.false_and]
      · intro u2 sid
        rw [List.filter_append, List.length_append]
        by_cases huu : u2 = u
        · subst huu
          by_cases hsid : sid ∈ (dedupeByScenario responses).map (fun r2 => r2.scenario_id)
          · rcases List.mem_map.mp hsid with ⟨r, hr, hkey⟩
            obtain ⟨oid, _, hfilt⟩ := newRows_matches_mem db u2 hid F
              (dedupe_keys_nodup responses) r hr
            rw [← hkey]
            rw [hkeptempty r.scenario_id (List.mem_map_of_mem _ hr), hfilt]
            simp
          · have hnew := newRows_matches_empty db u2 hid F sid hsid
            rw [hnew]
            simp only [List.length_nil, Nat.add_zero]
            calc ((db.responses.filter _).filter (respMatches db u2 sid)).length
                ≤ (db.responses.filter (respMatches db u2 sid)).length :=
                  List.Sublist.length_le
                    ((List.filter_sublist db.responses).filter (respMatches db u2 sid))
              _ ≤ 1 := hpre u2 sid
        · have hnew := newRows_other_user db u u2 sid huu F
          rw [hnew]
          simp only [List.length_nil, Nat.add_zero]
          calc ((db.responses.filter _).filter (respMatches db u2 sid)).length
              ≤ (db.responses.filter (respMatches db u2 sid)).length :=
                List.Sublist.length_le
                  ((List.filter_sublist db.responses).filter (respMatches db u2 sid))
            _ ≤ 1 := hpre u2 sid

/-- Witness for C8: a user with one stored response to scenario 1
re-submits scenario 1 with letter `B`; the post-state keeps at most one
response for the pair. -/
theorem C8_save_replace_semantics_witness :
    (({ options := [⟨10, 1, "t1", 1⟩, ⟨11, 1, "t2", 2⟩], responses := [⟨7, 11⟩] } :
        DB).responses.filter
      (respMatches
        { options := [⟨10, 1, "t1", 1⟩, ⟨11, 1, "t2", 2⟩], responses := [⟨7, 10⟩] }
        7 1)).length ≤ 1 := by
  have h := (C8_save_replace_semantics
      { options := [⟨10, 1, "t1", 1⟩, ⟨11, 1, "t2", 2⟩], responses := [⟨7, 10⟩] }
      [⟨1, "B"⟩] 7 (by decide)
      (fun u2 sid => le_trans (List.length_filter_le _ _) (by decide))).1
      { options := [⟨10, 1, "t1", 1⟩, ⟨11, 1, "t2", 2⟩], responses := [⟨7, 11⟩] } 1 rfl
  exact h.2.2.2 7 1
